import Mathlib

/- Verification of the tabular data engine of the MINITAB spreadsheet backend:
   the cell-store adapter (cells_to_dataframe / dataframe_to_cells), the
   CSV/Excel import and export wrappers, the range-formula evaluator, and the
   analysis services (summary statistics, correlation, linear regression,
   custom aggregates).  Python strings are modelled as Lean String or
   List Char, pandas DataFrames as rectangular tables of cell values,
   machine floats as exact rationals, and raised exceptions as Except. -/

namespace Minitab

/-- A Python runtime value as it can occur in a DataFrame cell of this
    program: a string, an int, a float (modelled as an exact rational),
    a bool, a pandas Timestamp (modelled as a calendar date-time), or NaN. -/
inductive PValue where
  | pstr (s : String)
  | pint (n : Int)
  | pfloat (q : ℚ)
  | pbool (b : Bool)
  | ptimestamp (year month day hour minute second : Nat)
  | pnan
deriving DecidableEq, Repr

/-- A pandas DataFrame of this program, modelled positionally: the program
    only ever builds frames whose row index is the default 0..n-1 range
    (cells_to_dataframe constructs `index=range(max_row+1)`), so row labels
    coincide with row positions.  `ncols` is `len(df.columns)` with the
    integer column labels 0..ncols-1; `rows` holds the cell values row-major. -/
structure Table where
  ncols : Nat
  rows : List (List PValue)
deriving DecidableEq, Repr

/-- `df.at[r, c]`: the value at row r, column c (rows are rectangular of
    length ncols in every well-formed table, so the defaults are inert). -/
def cellAt (df : Table) (r c : Nat) : PValue :=
  (df.rows.getD r []).getD c (.pstr "")

/-- Rectangularity of a DataFrame: every row has exactly ncols entries. -/
def TableWF (df : Table) : Prop :=
  ∀ row ∈ df.rows, row.length = df.ncols

instance : DecidablePred TableWF := fun df =>
  decidable_of_iff (∀ row ∈ df.rows, row.length = df.ncols) Iff.rfl

/-- Python `str.strip()` on a character list: drop whitespace at both ends. -/
def pyStrip (l : List Char) : List Char :=
  ((l.dropWhile Char.isWhitespace).reverse.dropWhile Char.isWhitespace).reverse

/-- Python `str.split(sep)` for a single-character separator: split on every
    occurrence, keeping empty segments (the result is always nonempty). -/
def splitOnChar (sep : Char) : List Char → List (List Char)
  | [] => [[]]
  | c :: rest =>
    if c = sep then [] :: splitOnChar sep rest
    else
      match splitOnChar sep rest with
      | h :: t => (c :: h) :: t
      | [] => [[c]]

/-- Python `int()` on a string of decimal digit characters. -/
def pyIntDigits (l : List Char) : Nat :=
  l.foldl (fun a c => a * 10 + (c.toNat - '0'.toNat)) 0

/-- The decimal digit character for a value below ten. -/
def digitChar10 (r : Nat) : Char :=
  match r with
  | 0 => '0' | 1 => '1' | 2 => '2' | 3 => '3' | 4 => '4'
  | 5 => '5' | 6 => '6' | 7 => '7' | 8 => '8' | _ => '9'

/-- Decimal digit characters of a natural number, fuelled so that the
    recursion is structural (any fuel above the number itself is enough). -/
def natCharsAux : Nat → Nat → List Char
  | 0, _ => []
  | fuel + 1, n =>
    if n < 10 then [digitChar10 n]
    else natCharsAux fuel (n / 10) ++ [digitChar10 (n % 10)]

/-- Decimal digit characters of a natural number (Python `str(n)` for n ≥ 0). -/
def natChars (n : Nat) : List Char := natCharsAux (n + 1) n

/-- Python `str(n)` for an int: decimal digits with a leading minus sign for
    negative values. -/
def pyIntStr (n : Int) : String :=
  if n < 0 then String.mk ('-' :: natChars n.natAbs) else String.mk (natChars n.natAbs)

/-- Decimal digits of the fraction r/d (with r < d), emitted greedily with a
    fuel bound.  The floats of the source program are dyadic rationals whose
    expansion terminates well within the fuel, so this prints their exact
    decimal text. -/
def fracChars : Nat → Nat → Nat → List Char
  | 0, _, _ => []
  | fuel + 1, r, d =>
    if r = 0 then []
    else digitChar10 (r * 10 / d) :: fracChars fuel (r * 10 % d) d

/-- Python `str(x)` for a float, on the dyadic rationals floats denote:
    sign, integer part, a dot, then the (terminating) fractional digits —
    `str(3.0) = "3.0"`, `str(-2.5) = "-2.5"`.  Scientific notation for very
    large/small magnitudes is not modelled; no claim depends on it. -/
def pyFloatStr (q : ℚ) : String :=
  let sgn : List Char := if q.num < 0 then ['-'] else []
  let n := q.num.natAbs
  let d := q.den
  let fpart := fracChars 80 (n % d) d
  String.mk (sgn ++ natChars (n / d) ++ ['.'] ++ (if fpart = [] then ['0'] else fpart))

/-- Zero-padded decimal digits: at least two digits. -/
def pad2 (n : Nat) : List Char :=
  if n < 10 then '0' :: natChars n else natChars n

/-- Zero-padded decimal digits: at least four digits (for years). -/
def pad4 (n : Nat) : List Char :=
  if n < 10 then '0' :: '0' :: '0' :: natChars n
  else if n < 100 then '0' :: '0' :: natChars n
  else if n < 1000 then '0' :: natChars n
  else natChars n

/-- `pandas.Timestamp.isoformat()`: `YYYY-MM-DDTHH:MM:SS` for whole-second
    timestamps (fractional seconds are not modelled; no claim depends on
    them). -/
def isoFormat (year month day hour minute second : Nat) : String :=
  String.mk (pad4 year ++ '-' :: pad2 month ++ '-' :: pad2 day ++
    'T' :: pad2 hour ++ ':' :: pad2 minute ++ ':' :: pad2 second)

/-- Python `str(value)` on the cell values of this model.  `str` of a string
    is the string itself; ints and floats print their decimal text; bools
    print `True`/`False`; NaN prints `nan`. -/
def pyStr (v : PValue) : String :=
  match v with
  | .pstr s => s
  | .pint n => pyIntStr n
  | .pfloat q => pyFloatStr q
  | .pbool b => if b then "True" else "False"
  | .ptimestamp y mo d h mi s => isoFormat y mo d h mi s
  | .pnan => "nan"

/-- An input cell dictionary as consumed by `cells_to_dataframe`: row index,
    column index, and an optional value (`cell.get('value', '')` defaults a
    missing value to the empty string). -/
structure CellIn where
  row_index : Nat
  column_index : Nat
  value : Option String
deriving DecidableEq, Repr

/-- A cell dictionary as produced by `dataframe_to_cells`. -/
structure CellRec where
  spreadsheet_id : String
  row_index : Nat
  column_index : Nat
  value : String
  data_type : String
deriving DecidableEq, Repr

/-- The value the nested dict `data_dict` of `cells_to_dataframe` holds at
    (r, c): the last cell in the list with those coordinates wins (dict
    insertion overwrites), its missing value defaulted to the empty string. -/
def lastVal (cells : List CellIn) (r c : Nat) : Option String :=
  cells.foldl
    (fun acc x =>
      if x.row_index = r ∧ x.column_index = c then some (x.value.getD "") else acc)
    none

/-- `DataEngineService.cells_to_dataframe`: an empty cell list yields the
    empty frame; otherwise a (max_row+1) × (max_col+1) frame filled with
    empty strings and overwritten by the cells' values, duplicates resolved
    last-write-wins. -/
def cells_to_dataframe (cells : List CellIn) : Table :=
  if cells.isEmpty then ⟨0, []⟩
  else
    let maxRow := cells.foldl (fun m x => max m x.row_index) 0
    let maxCol := cells.foldl (fun m x => max m x.column_index) 0
    ⟨maxCol + 1,
      (List.range (maxRow + 1)).map fun r =>
        (List.range (maxCol + 1)).map fun c =>
          PValue.pstr ((lastVal cells r c).getD "")⟩

/-- The skip test of `dataframe_to_cells`: `pd.isna(value) or value == ''`.
    In Python a number, bool or timestamp never compares equal to the empty
    string, so only NaN and the empty string are blank. -/
def isBlankCell (v : PValue) : Bool :=
  v = PValue.pnan ∨ v = PValue.pstr ""

/-- The type classification of `dataframe_to_cells`: ints and floats (bools
    excluded) are `number` serialized via `str`; timestamps are `date`
    serialized via `isoformat`; everything else is `text` via `str`.
    Returns (data_type, serialized value). -/
def classifyCell (v : PValue) : String × String :=
  match v with
  | .pint n => ("number", pyIntStr n)
  | .pfloat q => ("number", pyFloatStr q)
  | .ptimestamp y mo d h mi s => ("date", isoFormat y mo d h mi s)
  | v => ("text", pyStr v)

/-- `DataEngineService.dataframe_to_cells`: walk the frame row-major,
    emitting every non-blank cell with the row's 0-based position as
    `row_index`, the column's index, the serialized value and its inferred
    data type. -/
def dataframe_to_cells (df : Table) (spreadsheet_id : String) : List CellRec :=
  df.rows.enum.flatMap fun rc =>
    (List.range df.ncols).filterMap fun c =>
      let v := rc.2.getD c (.pstr "")
      if isBlankCell v then none
      else some ⟨spreadsheet_id, rc.1, c, (classifyCell v).2, (classifyCell v).1⟩

/-- Reading a persisted cell record back as input to `cells_to_dataframe`
    (the stored value is present on a persisted record). -/
def recToIn (r : CellRec) : CellIn :=
  ⟨r.row_index, r.column_index, some r.value⟩

/-- The cell-store round trip: table → cell records → table. -/
def roundTrip (df : Table) (sid : String) : Table :=
  cells_to_dataframe ((dataframe_to_cells df sid).map recToIn)

theorem getD_map_range {α : Type} (f : Nat → α) {i n : Nat} (h : i < n) (d : α) :
    ((List.range n).map f).getD i d = f i := by
  rw [List.getD_eq_getElem _ _ (by simpa using h)]
  simp

theorem le_foldl_max (l : List Nat) (a : Nat) : a ≤ l.foldl max a := by
  induction l generalizing a with
  | nil => exact le_refl a
  | cons h t ih => exact le_trans (Nat.le_max_left a h) (ih (max a h))

theorem mem_le_foldl_max {x : Nat} {l : List Nat} (hx : x ∈ l) (a : Nat) :
    x ≤ l.foldl max a := by
  induction l generalizing a with
  | nil => cases hx
  | cons h t ih =>
    rcases List.mem_cons.mp hx with rfl | hx'
    · exact le_trans (Nat.le_max_right a x) (le_foldl_max t (max a x))
    · exact ih hx' (max a h)

theorem foldl_max_le {l : List Nat} {a b : Nat} (hl : ∀ x ∈ l, x ≤ b) (ha : a ≤ b) :
    l.foldl max a ≤ b := by
  induction l generalizing a with
  | nil => exact ha
  | cons h t ih =>
    exact ih (fun x hx => hl x (List.mem_cons_of_mem h hx))
      (max_le ha (hl h (List.mem_cons_self h t)))

theorem lastVal_no_match {cells : List CellIn} {r c : Nat}
    (h : ∀ x ∈ cells, ¬(x.row_index = r ∧ x.column_index = c)) :
    lastVal cells r c = none := by
  induction cells with
  | nil => rfl
  | cons x t ih =>
    have hx := h x (List.mem_cons_self x t)
    have ht := fun y hy => h y (List.mem_cons_of_mem x hy)
    simp only [lastVal, List.foldl_cons] at *
    rw [if_neg hx]
    exact ih ht

theorem lastVal_foldl_acc (cells : List CellIn) (r c : Nat) (acc : Option String) :
    cells.foldl
        (fun acc x =>
          if x.row_index = r ∧ x.column_index = c then some (x.value.getD "") else acc)
        acc
      = (lastVal cells r c).or acc := by
  induction cells generalizing acc with
  | nil => simp [lastVal]
  | cons x t ih =>
    simp only [lastVal, List.foldl_cons] at *
    by_cases hx : x.row_index = r ∧ x.column_index = c
    · rw [if_pos hx, if_pos hx, ih (some (x.value.getD ""))]
      rw [Option.or_assoc]
      rfl
    · rw [if_neg hx, if_neg hx, ih, ih]

theorem lastVal_append (a b : List CellIn) (r c : Nat) :
    lastVal (a ++ b) r c = (lastVal b r c).or (lastVal a r c) := by
  show (a ++ b).foldl _ none = _
  rw [List.foldl_append]
  exact lastVal_foldl_acc b r c _

/-- The row bound of the frame built by `cells_to_dataframe` (max observed
    row index). -/
def maxRowOf (cells : List CellIn) : Nat :=
  (cells.map CellIn.row_index).foldl max 0

/-- The column bound of the frame built by `cells_to_dataframe` (max observed
    column index). -/
def maxColOf (cells : List CellIn) : Nat :=
  (cells.map CellIn.column_index).foldl max 0

theorem cells_to_dataframe_eq {cells : List CellIn} (hne : cells ≠ []) :
    cells_to_dataframe cells =
      ⟨maxColOf cells + 1,
        (List.range (maxRowOf cells + 1)).map fun r =>
          (List.range (maxColOf cells + 1)).map fun c =>
            PValue.pstr ((lastVal cells r c).getD "")⟩ := by
  have hne' : cells.isEmpty = false := by
    rw [List.isEmpty_eq_false_iff_exists_mem]
    cases cells with
    | nil => exact absurd rfl hne
    | cons x t => exact ⟨x, List.mem_cons_self x t⟩
  unfold cells_to_dataframe maxRowOf maxColOf
  rw [hne']
  simp only [List.foldl_map, Bool.false_eq_true, if_false]

theorem cellAt_cells_to_dataframe {cells : List CellIn} (hne : cells ≠ []) {r c : Nat}
    (hr : r < maxRowOf cells + 1) (hc : c < maxColOf cells + 1) :
    cellAt (cells_to_dataframe cells) r c =
      .pstr ((lastVal cells r c).getD "") := by
  rw [cells_to_dataframe_eq hne]
  unfold cellAt
  simp only
  rw [getD_map_range _ hr, getD_map_range _ hc]

/-- C2 — Postcondition of `cells_to_dataframe`: the empty input yields the
    empty 0×0 frame; a nonempty input yields a rectangular frame of
    dimensions (max_row+1) × (max_col+1) over the observed indices, in which
    the last record for a (row, col) pair in iteration order wins (a missing
    value contributing the empty string) and positions covered by no record
    hold the empty string. -/
theorem cells_to_dataframe_postcondition (cells : List CellIn) :
    (cells = [] → cells_to_dataframe cells = ⟨0, []⟩) ∧
    (cells ≠ [] →
      (cells_to_dataframe cells).rows.length = maxRowOf cells + 1 ∧
      (cells_to_dataframe cells).ncols = maxColOf cells + 1 ∧
      (∀ row ∈ (cells_to_dataframe cells).rows,
        row.length = (cells_to_dataframe cells).ncols) ∧
      (∀ pre x post, cells = pre ++ x :: post →
        (∀ y ∈ post, ¬(y.row_index = x.row_index ∧ y.column_index = x.column_index)) →
        cellAt (cells_to_dataframe cells) x.row_index x.column_index =
          .pstr (x.value.getD "")) ∧
      (∀ r c, r < maxRowOf cells + 1 → c < maxColOf cells + 1 →
        (∀ x ∈ cells, ¬(x.row_index = r ∧ x.column_index = c)) →
        cellAt (cells_to_dataframe cells) r c = .pstr "")) := by
  constructor
  · intro h
    subst h
    rfl
  · intro hne
    refine ⟨?_, ?_, ?_, ?_, ?_⟩
    · rw [cells_to_dataframe_eq hne]
      simp
    · rw [cells_to_dataframe_eq hne]
    · rw [cells_to_dataframe_eq hne]
      intro row hrow
      simp only [List.mem_map] at hrow
      obtain ⟨r, _, rfl⟩ := hrow
      simp
    · intro pre x post hdecomp hpost
      have hxmem : x ∈ cells := by
        rw [hdecomp]
        exact List.mem_append.mpr (Or.inr (List.mem_cons_self x post))
      have hr : x.row_index < maxRowOf cells + 1 := by
        have h := mem_le_foldl_max (List.mem_map_of_mem CellIn.row_index hxmem) 0
        unfold maxRowOf
        omega
      have hc : x.column_index < maxColOf cells + 1 := by
        have h := mem_le_foldl_max (List.mem_map_of_mem CellIn.column_index hxmem) 0
        unfold maxColOf
        omega
      rw [cellAt_cells_to_dataframe hne hr hc]
      have hlv : lastVal cells x.row_index x.column_index = some (x.value.getD "") := by
        rw [hdecomp, lastVal_append]
        have h1 : lastVal (x :: post) x.row_index x.column_index
            = some (x.value.getD "") := by
          show List.foldl _ none (x :: post) = _
          rw [List.foldl_cons, if_pos ⟨rfl, rfl⟩, lastVal_foldl_acc,
            lastVal_no_match hpost]
          rfl
        rw [h1]
        rfl
      rw [hlv]
      rfl
    · intro r c hr hc hnomatch
      rw [cellAt_cells_to_dataframe hne hr hc, lastVal_no_match hnomatch]
      rfl

/-- C2 witness: the postcondition applied to a concrete three-record input
    with a duplicate coordinate and a missing value. -/
theorem cells_to_dataframe_postcondition_witness :
    cellAt (cells_to_dataframe [⟨0, 1, some "a"⟩, ⟨2, 0, none⟩, ⟨0, 1, some "b"⟩]) 0 1 =
      .pstr "b" ∧
    cellAt (cells_to_dataframe [⟨0, 1, some "a"⟩, ⟨2, 0, none⟩, ⟨0, 1, some "b"⟩]) 2 0 =
      .pstr "" ∧
    cellAt (cells_to_dataframe [⟨0, 1, some "a"⟩, ⟨2, 0, none⟩, ⟨0, 1, some "b"⟩]) 1 0 =
      .pstr "" := by
  refine ⟨?_, ?_, ?_⟩
  · exact ((cells_to_dataframe_postcondition _).2 (by decide)).2.2.2.1
      [⟨0, 1, some "a"⟩, ⟨2, 0, none⟩] ⟨0, 1, some "b"⟩ [] rfl (by decide)
  · exact ((cells_to_dataframe_postcondition _).2 (by decide)).2.2.2.1
      [⟨0, 1, some "a"⟩] ⟨2, 0, none⟩ [⟨0, 1, some "b"⟩] rfl (by decide)
  · exact ((cells_to_dataframe_postcondition _).2 (by decide)).2.2.2.2
      1 0 (by decide) (by decide) (by decide)

theorem filterMap_eq_map_of {α β : Type} (l : List α) (f : α → Option β) (g : α → β)
    (h : ∀ a ∈ l, f a = some (g a)) : l.filterMap f = l.map g := by
  induction l with
  | nil => rfl
  | cons x t ih =>
    rw [List.filterMap_cons, h x (List.mem_cons_self x t), List.map_cons,
      ih fun a ha => h a (List.mem_cons_of_mem x ha)]

theorem mem_enumFrom_bounds {α : Type} {p : Nat × α} {l : List α} {k : Nat}
    (h : p ∈ l.enumFrom k) : k ≤ p.1 ∧ p.1 < k + l.length := by
  induction l generalizing k with
  | nil => cases h
  | cons x t ih =>
    rcases List.mem_cons.mp h with rfl | h'
    · simp
    · have := ih h'
      simp only [List.length_cons]
      omega

theorem snd_mem_of_mem_enumFrom {α : Type} {p : Nat × α} {l : List α} {k : Nat}
    (h : p ∈ l.enumFrom k) : p.2 ∈ l := by
  induction l generalizing k with
  | nil => cases h
  | cons x t ih =>
    rcases List.mem_cons.mp h with rfl | h'
    · exact List.mem_cons_self x t
    · exact List.mem_cons_of_mem x (ih h')

theorem mem_enumFrom_of_lt {α : Type} (l : List α) (k i : Nat) (h : i < l.length) :
    (k + i, l[i]) ∈ l.enumFrom k := by
  induction l generalizing k i with
  | nil => simp at h
  | cons x t ih =>
    cases i with
    | zero => simp
    | succ j =>
      have hj : j < t.length := by simpa using h
      simp only [List.getElem_cons_succ]
      rw [show k + (j + 1) = (k + 1) + j from by omega]
      show _ ∈ (k, x) :: t.enumFrom (k + 1)
      exact List.mem_cons.mpr (Or.inr (ih (k + 1) j hj))

theorem lastVal_row_block (val : Nat → String) (k m r c : Nat) (hc : c < m) :
    lastVal ((List.range m).map fun cc => (⟨k, cc, some (val cc)⟩ : CellIn)) r c =
      if k = r then some (val c) else none := by
  induction m with
  | zero => omega
  | succ m ih =>
    rw [List.range_succ, List.map_append, lastVal_append]
    simp only [List.map_cons, List.map_nil]
    have hsingle : lastVal [(⟨k, m, some (val m)⟩ : CellIn)] r c =
        if k = r ∧ m = c then some (val m) else none := rfl
    by_cases hcm : c = m
    · subst hcm
      have hnone : lastVal ((List.range c).map fun cc =>
          (⟨k, cc, some (val cc)⟩ : CellIn)) r c = none := by
        apply lastVal_no_match
        intro x hx
        simp only [List.mem_map, List.mem_range] at hx
        obtain ⟨cc, hcc, rfl⟩ := hx
        simp only [not_and]
        intro _
        omega
      rw [hsingle, hnone]
      by_cases hk : k = r
      · simp [hk]
      · simp [hk, Option.or]
    · have hc' : c < m := by omega
      rw [hsingle, ih hc']
      have : ¬(k = r ∧ m = c) := by
        intro ⟨_, h2⟩
        exact hcm h2.symm
      rw [if_neg this]
      rfl

theorem lastVal_blocks (f : List PValue → Nat → String) (rows : List (List PValue))
    (m k r c : Nat) (hc : c < m) :
    lastVal
      ((rows.enumFrom k).flatMap fun rc =>
        (List.range m).map fun cc => (⟨rc.1, cc, some (f rc.2 cc)⟩ : CellIn)) r c =
      if k ≤ r ∧ r < k + rows.length then some (f (rows.getD (r - k) []) c)
      else none := by
  induction rows generalizing k with
  | nil =>
    simp only [List.enumFrom_nil, List.flatMap_nil, List.length_nil]
    rw [if_neg (by omega)]
    rfl
  | cons row rest ih =>
    rw [List.enumFrom_cons, List.flatMap_cons, lastVal_append, ih (k + 1),
      lastVal_row_block (f row) k m r c hc]
    by_cases hk : k = r
    · subst hk
      rw [if_neg (by omega), if_pos rfl, if_pos (by simp), Nat.sub_self]
      rfl
    · rw [if_neg hk]
      by_cases hrange : k + 1 ≤ r ∧ r < k + 1 + rest.length
      · rw [if_pos hrange, if_pos (by simp only [List.length_cons]; omega)]
        have : rest.getD (r - (k + 1)) [] = (row :: rest).getD (r - k) [] := by
          have h1 : r - k = (r - (k + 1)) + 1 := by omega
          rw [h1]
          rfl
        rw [this]
        rfl
      · rw [if_neg hrange, if_neg (by simp only [List.length_cons]; omega)]
        rfl

/-- A dense table all of whose cells are non-blank text values: each cell is
    a string and not the empty string (hence also not NaN). -/
def AllTextNonblank (df : Table) : Prop :=
  ∀ row ∈ df.rows, ∀ v ∈ row, ∃ s, s ≠ "" ∧ v = .pstr s

/-- The serialized value a cell contributes when emitted. -/
def cellValStr (row : List PValue) (c : Nat) : String :=
  (classifyCell (row.getD c (.pstr ""))).2

theorem mapped_cells_eq (T : Table) (sid : String) (hrect : TableWF T)
    (htext : AllTextNonblank T) :
    (dataframe_to_cells T sid).map recToIn =
      (T.rows.enumFrom 0).flatMap fun rc =>
        (List.range T.ncols).map fun cc =>
          (⟨rc.1, cc, some (cellValStr rc.2 cc)⟩ : CellIn) := by
  unfold dataframe_to_cells
  rw [show T.rows.enum = T.rows.enumFrom 0 from rfl, List.map_flatMap]
  apply List.flatMap_congr
  intro rc hrc
  rw [List.map_filterMap]
  apply filterMap_eq_map_of
  intro cc hcc
  have hmem : rc.2 ∈ T.rows := snd_mem_of_mem_enumFrom hrc
  have hlen : cc < rc.2.length := by
    rw [hrect rc.2 hmem]
    exact List.mem_range.mp hcc
  have hval : rc.2.getD cc (.pstr "") ∈ rc.2 := by
    rw [List.getD_eq_getElem _ _ hlen]
    exact List.getElem_mem hlen
  obtain ⟨s, hs, heq⟩ := htext rc.2 hmem _ hval
  simp only [heq, cellValStr]
  rw [if_neg (by simp [isBlankCell, hs])]
  rfl

theorem mapped_cells_max_row (T : Table) (sid : String) (hrect : TableWF T)
    (htext : AllTextNonblank T) (hrows : T.rows ≠ []) (hcols : 0 < T.ncols) :
    maxRowOf ((dataframe_to_cells T sid).map recToIn) = T.rows.length - 1 := by
  rw [mapped_cells_eq T sid hrect htext]
  have hn : 0 < T.rows.length := List.length_pos.mpr hrows
  apply Nat.le_antisymm
  · apply foldl_max_le _ (by omega)
    intro x hx
    simp only [List.mem_map, List.mem_flatMap] at hx
    obtain ⟨cell, ⟨rc, hrc, hcell⟩, rfl⟩ := hx
    simp only [List.mem_map, List.mem_range] at hcell
    obtain ⟨cc, _, rfl⟩ := hcell
    have := mem_enumFrom_bounds hrc
    dsimp only
    omega
  · apply mem_le_foldl_max
    have h0 := mem_enumFrom_of_lt T.rows 0 (T.rows.length - 1) (by omega)
    rw [Nat.zero_add] at h0
    refine List.mem_map.mpr ⟨⟨T.rows.length - 1, 0,
      some (cellValStr (T.rows[T.rows.length - 1]) 0)⟩, ?_, rfl⟩
    rw [List.mem_flatMap]
    refine ⟨(T.rows.length - 1, T.rows[T.rows.length - 1]), h0, ?_⟩
    simp only [List.mem_map, List.mem_range]
    exact ⟨0, hcols, rfl⟩

theorem mapped_cells_max_col (T : Table) (sid : String) (hrect : TableWF T)
    (htext : AllTextNonblank T) (hrows : T.rows ≠ []) (hcols : 0 < T.ncols) :
    maxColOf ((dataframe_to_cells T sid).map recToIn) = T.ncols - 1 := by
  rw [mapped_cells_eq T sid hrect htext]
  have hn : 0 < T.rows.length := List.length_pos.mpr hrows
  apply Nat.le_antisymm
  · apply foldl_max_le _ (by omega)
    intro x hx
    simp only [List.mem_map, List.mem_flatMap] at hx
    obtain ⟨cell, ⟨rc, hrc, hcell⟩, rfl⟩ := hx
    simp only [List.mem_map, List.mem_range] at hcell
    obtain ⟨cc, hcc, rfl⟩ := hcell
    dsimp only
    omega
  · apply mem_le_foldl_max
    have h0 := mem_enumFrom_of_lt T.rows 0 0 (by omega)
    rw [Nat.zero_add] at h0
    refine List.mem_map.mpr ⟨⟨0, T.ncols - 1,
      some (cellValStr (T.rows[0]) (T.ncols - 1))⟩, ?_, rfl⟩
    rw [List.mem_flatMap]
    refine ⟨(0, T.rows[0]), h0, ?_⟩
    simp only [List.mem_map, List.mem_range]
    exact ⟨T.ncols - 1, by omega, rfl⟩

theorem mapped_cells_ne_nil (T : Table) (sid : String) (hrect : TableWF T)
    (htext : AllTextNonblank T) (hrows : T.rows ≠ []) (hcols : 0 < T.ncols) :
    (dataframe_to_cells T sid).map recToIn ≠ [] := by
  rw [mapped_cells_eq T sid hrect htext]
  have hn : 0 < T.rows.length := List.length_pos.mpr hrows
  apply List.ne_nil_of_mem (a := ⟨0, 0, some (cellValStr (T.rows[0]) 0)⟩)
  have h0 := mem_enumFrom_of_lt T.rows 0 0 (by omega)
  rw [Nat.zero_add] at h0
  rw [List.mem_flatMap]
  refine ⟨(0, T.rows[0]), h0, ?_⟩
  simp only [List.mem_map, List.mem_range]
  exact ⟨0, hcols, rfl⟩

/-- C1 (amended) — Round-trip of the cell-store adapter: for every
    rectangular dense table with at least one row and one column, all of
    whose cells are non-blank text values,
    `cells_to_dataframe (dataframe_to_cells T) = T` — every value reappears
    at the same (row, column) position. -/
theorem roundTrip_of_allText (T : Table) (sid : String) (hrect : TableWF T)
    (hrows : T.rows ≠ []) (hcols : 0 < T.ncols) (htext : AllTextNonblank T) :
    roundTrip T sid = T := by
  unfold roundTrip
  have hn : 0 < T.rows.length := List.length_pos.mpr hrows
  have hne := mapped_cells_ne_nil T sid hrect htext hrows hcols
  rw [cells_to_dataframe_eq hne,
    mapped_cells_max_row T sid hrect htext hrows hcols,
    mapped_cells_max_col T sid hrect htext hrows hcols]
  have hcell : ∀ r c, r < T.rows.length → c < T.ncols →
      lastVal ((dataframe_to_cells T sid).map recToIn) r c =
        some (cellValStr (T.rows.getD r []) c) := by
    intro r c hr hc
    rw [mapped_cells_eq T sid hrect htext,
      lastVal_blocks cellValStr T.rows T.ncols 0 r c hc,
      if_pos ⟨Nat.zero_le r, by omega⟩]
    rfl
  have hTrows : T = ⟨T.ncols, T.rows⟩ := rfl
  rw [show T.ncols - 1 + 1 = T.ncols from by omega,
    show T.rows.length - 1 + 1 = T.rows.length from by omega]
  rw [hTrows]
  refine congrArg (Table.mk T.ncols) ?_
  apply List.ext_getElem (by simp)
  intro r hr1 hr2
  rw [List.getElem_map, List.getElem_range]
  have hrlt : r < T.rows.length := by simpa using hr2
  apply List.ext_getElem (by simp [hrect (T.rows[r]) (List.getElem_mem hrlt)])
  intro c hc1 hc2
  have hclt : c < T.ncols := by simpa using hc1
  rw [List.getElem_map, List.getElem_range]
  rw [hcell r c hrlt hclt]
  have hvmem : T.rows[r][c] ∈ T.rows[r] := List.getElem_mem hc2
  obtain ⟨s, hs, heq⟩ := htext (T.rows[r]) (List.getElem_mem hrlt) _ hvmem
  have hgetD : (T.rows.getD r []).getD c (.pstr "") = T.rows[r][c] := by
    rw [List.getD_eq_getElem _ _ hrlt, List.getD_eq_getElem _ _ hc2]
  rw [heq]
  simp only [cellValStr, hgetD, heq, classifyCell, Option.getD_some]
  rfl

/-- C1 witness: the round trip reproduces a concrete 2×2 all-text table. -/
theorem roundTrip_of_allText_witness :
    roundTrip ⟨2, [[.pstr "a", .pstr "b"], [.pstr "c", .pstr "d"]]⟩ "sheet1" =
      ⟨2, [[.pstr "a", .pstr "b"], [.pstr "c", .pstr "d"]]⟩ := by
  apply roundTrip_of_allText _ "sheet1" (by decide) (by decide) (by decide)
  intro row hrow v hv
  fin_cases hrow <;> fin_cases hv
  · exact ⟨"a", by decide, rfl⟩
  · exact ⟨"b", by decide, rfl⟩
  · exact ⟨"c", by decide, rfl⟩
  · exact ⟨"d", by decide, rfl⟩

/-- C1 counterexample: the round trip is not the identity on arbitrary dense
    tables.  A numeric cell reappears as its string form, so a no-blank
    table with an int cell does not round-trip to itself; and a blank cell
    in the last column is dropped entirely, so the round-tripped table loses
    that column (the blank position is absent, not an empty string). -/
theorem roundTrip_not_id :
    roundTrip ⟨1, [[.pint 3]]⟩ "s" ≠ ⟨1, [[.pint 3]]⟩ ∧
    (roundTrip ⟨2, [[.pstr "a", .pstr ""]]⟩ "s").ncols = 1 := by
  constructor
  · decide
  · decide

theorem mem_enumFrom_iff {α : Type} {l : List α} {k : Nat} {p : Nat × α} :
    p ∈ l.enumFrom k ↔ ∃ (i : Nat) (h : i < l.length), p.1 = k + i ∧ p.2 = l[i] := by
  induction l generalizing k with
  | nil => simp
  | cons x t ih =>
    constructor
    · intro h
      rcases List.mem_cons.mp h with rfl | h'
      · exact ⟨0, by simp, by simp⟩
      · obtain ⟨i, hi, h1, h2⟩ := ih.mp h'
        exact ⟨i + 1, by simpa using hi, by omega, by simpa using h2⟩
    · rintro ⟨i, hi, h1, h2⟩
      cases i with
      | zero =>
        have : p = (k, x) := by
          cases p
          simp_all [Prod.ext_iff]
        rw [this]
        exact List.mem_cons_self _ _
      | succ j =>
        have hj : j < t.length := by simpa using hi
        apply List.mem_cons_of_mem
        apply ih.mpr
        exact ⟨j, hj, by omega, by simpa using h2⟩

theorem classifyCell_fst (v : PValue) :
    (classifyCell v).1 = match v with
      | .pint _ => "number"
      | .pfloat _ => "number"
      | .ptimestamp _ _ _ _ _ _ => "date"
      | _ => "text" := by
  cases v <;> rfl

theorem classifyCell_snd (v : PValue) :
    (classifyCell v).2 = match v with
      | .pint n => pyIntStr n
      | .pfloat q => pyFloatStr q
      | .ptimestamp y mo d h mi s => isoFormat y mo d h mi s
      | v => pyStr v := by
  cases v <;> rfl

/-- C6 — Postcondition of `dataframe_to_cells`: the emitted records are
    exactly the non-blank positions of the table (blank cells — NaN or the
    empty string — are never emitted); each record carries the positional
    0-based row index and column index of its cell, and its declared type
    and serialized value follow the type-inference rule: int/float →
    "number" via `str`, timestamp → "date" via ISO-8601, everything else →
    "text" via `str`. -/
theorem dataframe_to_cells_spec (df : Table) (sid : String) (rec : CellRec) :
    rec ∈ dataframe_to_cells df sid ↔
      ∃ r c, r < df.rows.length ∧ c < df.ncols ∧
        ¬(cellAt df r c = .pnan ∨ cellAt df r c = .pstr "") ∧
        rec = ⟨sid, r, c,
          match cellAt df r c with
          | .pint n => pyIntStr n
          | .pfloat q => pyFloatStr q
          | .ptimestamp y mo d h mi s => isoFormat y mo d h mi s
          | v => pyStr v,
          match cellAt df r c with
          | .pint _ => "number"
          | .pfloat _ => "number"
          | .ptimestamp _ _ _ _ _ _ => "date"
          | _ => "text"⟩ := by
  have hblank : ∀ v : PValue, isBlankCell v = false ↔ ¬(v = .pnan ∨ v = .pstr "") := by
    intro v
    simp [isBlankCell]
  have hcellAt : ∀ (r : Nat) (hr : r < df.rows.length) (c : Nat),
      (df.rows[r]).getD c (.pstr "") = cellAt df r c := by
    intro r hr c
    unfold cellAt
    rw [List.getD_eq_getElem _ _ hr]
  constructor
  · intro hmem
    unfold dataframe_to_cells at hmem
    rw [show df.rows.enum = df.rows.enumFrom 0 from rfl, List.mem_flatMap] at hmem
    obtain ⟨rc, hrc, hcell⟩ := hmem
    obtain ⟨r, hr, h1, h2⟩ := mem_enumFrom_iff.mp hrc
    rw [List.mem_filterMap] at hcell
    obtain ⟨c, hcrange, hsome⟩ := hcell
    have hc : c < df.ncols := List.mem_range.mp hcrange
    by_cases hb : isBlankCell (rc.2.getD c (.pstr ""))
    · rw [if_pos hb] at hsome
      cases hsome
    · rw [if_neg hb] at hsome
      have hrc1 : rc.1 = r := by omega
      have hv : rc.2.getD c (.pstr "") = cellAt df r c := by
        rw [h2, hcellAt r hr c]
      refine ⟨r, c, hr, hc, ?_, ?_⟩
      · rw [← hv]
        exact (hblank _).mp (Bool.of_not_eq_true hb)
      · have := Option.some.inj hsome
        rw [← this, ← classifyCell_fst, ← classifyCell_snd, hrc1, hv]
  · rintro ⟨r, c, hr, hc, hnb, rfl⟩
    unfold dataframe_to_cells
    rw [show df.rows.enum = df.rows.enumFrom 0 from rfl, List.mem_flatMap]
    have h0 := mem_enumFrom_of_lt df.rows 0 r hr
    rw [Nat.zero_add] at h0
    refine ⟨(r, df.rows[r]), h0, ?_⟩
    rw [List.mem_filterMap]
    refine ⟨c, List.mem_range.mpr hc, ?_⟩
    have hv : (df.rows[r]).getD c (.pstr "") = cellAt df r c := hcellAt r hr c
    have hbf : isBlankCell (cellAt df r c) = false := (hblank _).mpr hnb
    rw [hv, if_neg (by simp [hbf]), classifyCell_fst, classifyCell_snd]

/-- C6 witness: the characterization applied to a concrete table holding an
    int and a blank: the int cell's record (type "number", value "3") is
    emitted at position (0,0). -/
theorem dataframe_to_cells_spec_witness :
    (⟨"s", 0, 0, "3", "number"⟩ : CellRec) ∈
      dataframe_to_cells ⟨2, [[.pint 3, .pstr ""]]⟩ "s" :=
  (dataframe_to_cells_spec ⟨2, [[.pint 3, .pstr ""]]⟩ "s" _).mpr
    ⟨0, 0, by decide, by decide, by decide, by decide⟩

instance {ε α : Type} [DecidableEq ε] [DecidableEq α] : DecidableEq (Except ε α)
  | .error e, .error e' =>
    if h : e = e' then .isTrue (by rw [h]) else .isFalse (by intro hh; cases hh; exact h rfl)
  | .error _, .ok _ => .isFalse (by intro h; cases h)
  | .ok _, .error _ => .isFalse (by intro h; cases h)
  | .ok a, .ok b =>
    if h : a = b then .isTrue (by rw [h]) else .isFalse (by intro hh; cases hh; exact h rfl)

/-- A Python exception value as raised by the code under verification.
    `importError` (Python's builtin ImportError) is never raised by this
    code; it is included so that statements about which exception class is
    raised are expressible. -/
inductive PyErr where
  | valueError (msg : String)
  | keyError (msg : String)
  | importError (msg : String)
deriving DecidableEq, Repr

/-- The outcome of the external `pd.read_csv(BytesIO(content))` call on a
    given byte stream: either a parsed frame or a raised parse error
    (pandas is an external library, so its parse is the abstraction
    boundary of this model; an empty byte stream raises EmptyDataError,
    a header-only stream parses to a frame with zero rows). -/
inductive PdReadResult where
  | ok (df : Table)
  | err (msg : String)
deriving DecidableEq, Repr

/-- `DataEngineService.import_from_csv`: returns the frame produced by
    `pd.read_csv`, re-raising any exception from the read as
    `ValueError("Failed to import CSV: ...")`.  No inspection of the parsed
    frame takes place: in particular a parse that succeeds with zero rows is
    returned as-is. -/
def import_from_csv (read : PdReadResult) : Except PyErr Table :=
  match read with
  | .ok df => .ok df
  | .err e => .error (.valueError ("Failed to import CSV: " ++ e))

/-- The outcome of the external `pd.read_excel(BytesIO(content),
    sheet_name=..., engine='openpyxl')` call: a single frame (a named sheet
    was requested and found), a dict of sheet-name/frame pairs (sheet_name
    None), or a raised error (missing named sheet, corrupt content). -/
inductive XlReadResult where
  | single (df : Table)
  | sheets (l : List (String × Table))
  | err (msg : String)
deriving DecidableEq, Repr

/-- The sheet-name normalization of `import_from_excel`: None and the
    literal string "None" (case-insensitively "none") select the first
    sheet. -/
def normalizeSheetName (s : Option String) : Option String :=
  match s with
  | none => none
  | some str => if str = "None" ∨ str.toLower = "none" then none else some str

/-- `DataEngineService.import_from_excel`: a dict result with zero sheets
    raises `ValueError("Excel file contains no sheets")` which its own
    except-block re-wraps; a nonempty dict yields the first sheet; a single
    frame is returned; any exception from the read is re-raised as
    `ValueError("Failed to import Excel: ...")`. -/
def import_from_excel (read : XlReadResult) : Except PyErr Table :=
  match read with
  | .single df => .ok df
  | .sheets [] => .error (.valueError "Failed to import Excel: Excel file contains no sheets")
  | .sheets ((_, df) :: _) => .ok df
  | .err e => .error (.valueError ("Failed to import Excel: " ++ e))

/-- C4 counterexample: `import_from_csv` does not raise when the parse
    succeeds with zero rows (a header-only CSV yields a 0-row frame that is
    returned as-is), and a failed parse raises ValueError — not
    ImportError. -/
theorem import_error_class_cex :
    import_from_csv (.ok ⟨3, []⟩) = .ok ⟨3, []⟩ ∧
    import_from_csv (.err "bad bytes") =
      .error (.valueError "Failed to import CSV: bad bytes") ∧
    (∀ msg, import_from_csv (.err "bad bytes") ≠ .error (.importError msg)) := by
  refine ⟨rfl, rfl, ?_⟩
  intro msg h
  cases h

/-- C4 (amended) — Import failure semantics: `import_from_csv` raises
    ValueError (never ImportError) exactly when the underlying pandas read
    raises, wrapping its message; a read that succeeds — even with zero rows
    — is returned without error.  `import_from_excel` raises ValueError when
    the read raises (missing named sheet, corrupt/unreadable content) and
    when a sheet-dict read has zero sheets; a single frame or a nonempty
    sheet dict succeeds. -/
theorem import_failure_semantics :
    (∀ read df, import_from_csv read = .ok df ↔ read = .ok df) ∧
    (∀ msg, import_from_csv (.err msg) =
      .error (.valueError ("Failed to import CSV: " ++ msg))) ∧
    (∀ msg, import_from_excel (.err msg) =
      .error (.valueError ("Failed to import Excel: " ++ msg))) ∧
    (import_from_excel (.sheets []) =
      .error (.valueError "Failed to import Excel: Excel file contains no sheets")) ∧
    (∀ name df rest, import_from_excel (.sheets ((name, df) :: rest)) = .ok df) ∧
    (∀ df, import_from_excel (.single df) = .ok df) := by
  refine ⟨?_, fun _ => rfl, fun _ => rfl, rfl, fun _ _ _ => rfl, fun _ => rfl⟩
  intro read df
  cases read with
  | ok d =>
    constructor
    · intro h
      cases h
      rfl
    · intro h
      cases h
      rfl
  | err e =>
    constructor
    · intro h
      cases h
    · intro h
      cases h

/-- CSV quote escaping: a double quote inside a quoted field is doubled. -/
def csvEscape (l : List Char) : List Char :=
  l.flatMap fun c => if c = '"' then ['"', '"'] else [c]

/-- One CSV field as the csv writer underlying `df.to_csv` renders it
    (QUOTE_MINIMAL): quoted, with inner quotes doubled, iff the text
    contains the delimiter, a quote, or a line-terminator character. -/
def pyCsvField (s : String) : String :=
  if ',' ∈ s.toList ∨ '"' ∈ s.toList ∨ '\n' ∈ s.toList ∨ '\r' ∈ s.toList then
    String.mk ('"' :: (csvEscape s.toList ++ ['"']))
  else s

/-- The text a cell value contributes to `to_csv` output: NaN renders as the
    default `na_rep` empty string, everything else as its `str` form, csv
    quoted. -/
def csvCellText (v : PValue) : String :=
  match v with
  | .pnan => ""
  | v => pyCsvField (pyStr v)

/-- Comma-join of the fields of one CSV line. -/
def joinComma : List String → String
  | [] => ""
  | [s] => s
  | s :: t => s ++ "," ++ joinComma t

/-- `DataEngineService.export_to_csv`, by lines: `df.to_csv(buffer,
    index=False)` writes the header line of the column labels (header=True
    is the pandas default — only the row index is suppressed) followed by
    one line per row, fields in column order. -/
def export_to_csv_lines (df : Table) : List String :=
  joinComma ((List.range df.ncols).map fun c => pyCsvField (String.mk (natChars c)))
    :: df.rows.map fun row =>
      joinComma ((List.range df.ncols).map fun c => csvCellText (row.getD c (.pstr "")))

/-- Newline-terminated concatenation of the written lines. -/
def joinLines : List String → String
  | [] => ""
  | l :: t => l ++ "\n" ++ joinLines t

/-- `DataEngineService.export_to_csv`: the CSV text (as decoded bytes). -/
def export_to_csv (df : Table) : String :=
  joinLines (export_to_csv_lines df)

/-- Occurrences of a character in a string. -/
def countChar (c : Char) (s : String) : Nat :=
  s.toList.count c

theorem countChar_append (c : Char) (a b : String) :
    countChar c (a ++ b) = countChar c a + countChar c b := by
  show ((a ++ b).data.count c) = a.data.count c + b.data.count c
  rw [String.data_append, List.count_append]

theorem countChar_joinComma {l : List String}
    (h : ∀ s ∈ l, countChar '\n' s = 0) : countChar '\n' (joinComma l) = 0 := by
  induction l with
  | nil => rfl
  | cons s t ih =>
    cases t with
    | nil => exact h s (List.mem_cons_self s [])
    | cons s' t' =>
      show countChar '\n' (s ++ "," ++ joinComma (s' :: t')) = 0
      rw [countChar_append, countChar_append,
        h s (List.mem_cons_self _ _), ih fun x hx => h x (List.mem_cons_of_mem s hx)]
      rfl

theorem countChar_joinLines {l : List String}
    (h : ∀ s ∈ l, countChar '\n' s = 0) : countChar '\n' (joinLines l) = l.length := by
  induction l with
  | nil => rfl
  | cons s t ih =>
    show countChar '\n' (s ++ "\n" ++ joinLines t) = t.length + 1
    rw [countChar_append, countChar_append, h s (List.mem_cons_self _ _),
      ih fun x hx => h x (List.mem_cons_of_mem s hx)]
    have h1 : countChar '\n' "\n" = 1 := rfl
    omega

theorem digitChar10_isDigit (r : Nat) : (digitChar10 r).isDigit = true := by
  unfold digitChar10
  split <;> decide

theorem natCharsAux_digits (fuel n : Nat) : ∀ c ∈ natCharsAux fuel n, c.isDigit = true := by
  induction fuel generalizing n with
  | zero => intro c hc; cases hc
  | succ fuel ih =>
    intro c hc
    unfold natCharsAux at hc
    by_cases hn : n < 10
    · rw [if_pos hn] at hc
      rcases List.mem_cons.mp hc with rfl | h'
      · exact digitChar10_isDigit n
      · cases h'
    · rw [if_neg hn] at hc
      rcases List.mem_append.mp hc with h' | h'
      · exact ih (n / 10) c h'
      · rcases List.mem_cons.mp h' with rfl | h''
        · exact digitChar10_isDigit (n % 10)
        · cases h''

theorem countChar_pyCsvField_of (s : String) (h : '\n' ∉ s.toList) :
    countChar '\n' (pyCsvField s) = 0 := by
  unfold pyCsvField
  split
  · show List.count '\n' ('"' :: (csvEscape s.toList ++ ['"'])) = 0
    rw [List.count_eq_zero]
    intro hmem
    rcases List.mem_cons.mp hmem with hq | hmem'
    · cases hq
    rcases List.mem_append.mp hmem' with hesc | hquote
    · unfold csvEscape at hesc
      rw [List.mem_flatMap] at hesc
      obtain ⟨a, ha, hin⟩ := hesc
      by_cases haq : a = '"'
      · rw [if_pos haq] at hin
        rcases List.mem_cons.mp hin with h1 | h1
        · cases h1
        rcases List.mem_cons.mp h1 with h2 | h2
        · cases h2
        · cases h2
      · rw [if_neg haq] at hin
        rcases List.mem_cons.mp hin with rfl | h1
        · exact h ha
        · cases h1
    · rcases List.mem_cons.mp hquote with h1 | h1
      · cases h1
      · cases h1
  · exact List.count_eq_zero.mpr h

/-- C5 (amended) — `export_to_csv` writes a header line of the column
    labels (header=True is the pandas default; only the row-index column is
    suppressed by index=False) followed by exactly one line per table row,
    so when no rendered cell text contains a newline the output has
    `nrows + 1` lines, not `nrows`. -/
theorem export_to_csv_line_count (df : Table)
    (h : ∀ row ∈ df.rows, ∀ c, c < df.ncols →
      countChar '\n' (csvCellText (row.getD c (.pstr ""))) = 0) :
    countChar '\n' (export_to_csv df) = df.rows.length + 1 ∧
    (export_to_csv_lines df).length = df.rows.length + 1 := by
  constructor
  · unfold export_to_csv
    rw [countChar_joinLines, export_to_csv_lines]
    · simp
    · intro s hs
      unfold export_to_csv_lines at hs
      rcases List.mem_cons.mp hs with rfl | hrow
      · apply countChar_joinComma
        intro fld hfld
        simp only [List.mem_map, List.mem_range] at hfld
        obtain ⟨cidx, _, rfl⟩ := hfld
        apply countChar_pyCsvField_of
        intro hmem
        have := natCharsAux_digits (cidx + 1) cidx '\n' hmem
        simp at this
      · simp only [List.mem_map] at hrow
        obtain ⟨row, hrowmem, rfl⟩ := hrow
        apply countChar_joinComma
        intro fld hfld
        simp only [List.mem_map, List.mem_range] at hfld
        obtain ⟨cidx, hcidx, rfl⟩ := hfld
        exact h row hrowmem cidx hcidx
  · unfold export_to_csv_lines
    simp

/-- C5 witness: the line count on a concrete 1×2 table. -/
theorem export_to_csv_line_count_witness :
    countChar '\n' (export_to_csv ⟨2, [[.pstr "a", .pstr "b"]]⟩) = 2 :=
  (export_to_csv_line_count ⟨2, [[.pstr "a", .pstr "b"]]⟩ (by decide)).1

/-- C5 counterexample: the export of a one-row table has two lines, the
    first being the header line of column labels — the claim that no header
    row is emitted and that the line count equals the row count fails. -/
theorem export_to_csv_header_cex :
    export_to_csv_lines ⟨1, [[.pstr "5"]]⟩ = ["0", "5"] ∧
    export_to_csv ⟨1, [[.pstr "5"]]⟩ = "0\n5\n" := by
  constructor
  · decide
  · decide

/-- Python `float(s)` on a decimal literal string: optional surrounding
    whitespace, optional sign, digits with at most one dot (at least one
    digit overall), optional exponent.  The special forms inf/nan and
    underscore separators are not modelled; no claim exercises them. -/
def pyFloat (l0 : List Char) : Option ℚ :=
  let l := pyStrip l0
  let sl : ℚ × List Char :=
    match l with
    | '+' :: t => (1, t)
    | '-' :: t => (-1, t)
    | t => (1, t)
  let ip := sl.2.takeWhile Char.isDigit
  let r1 := sl.2.dropWhile Char.isDigit
  let fr : List Char × List Char :=
    match r1 with
    | '.' :: t => (t.takeWhile Char.isDigit, t.dropWhile Char.isDigit)
    | t => ([], t)
  if ip.length + fr.1.length = 0 then none
  else
    let mant : ℚ := (pyIntDigits (ip ++ fr.1) : ℚ) / (10 : ℚ) ^ fr.1.length
    match fr.2 with
    | [] => some (sl.1 * mant)
    | e :: t =>
      if e = 'e' ∨ e = 'E' then
        let et : Int × List Char :=
          match t with
          | '+' :: t' => (1, t')
          | '-' :: t' => (-1, t')
          | t' => (1, t')
        let ed := et.1 * (pyIntDigits (et.2.takeWhile Char.isDigit) : Int)
        if (et.2.takeWhile Char.isDigit).length = 0 ∨
            et.2.dropWhile Char.isDigit ≠ [] then none
        else some (sl.1 * mant * (10 : ℚ) ^ ed)
      else none

/-- The numeric coercion applied to one cell value, modelling both
    `float(val)` in the formula evaluator and per-cell
    `pd.to_numeric(..., errors='coerce')` (followed by dropna) in the
    analyses: numeric strings parse, ints/floats/bools are numeric
    (float(True) = 1.0), timestamps and NaN are not (float(Timestamp)
    raises and is skipped; NaN is dropped by dropna — the evaluator never
    sees NaN cells, its frames being built by cells_to_dataframe which
    fills blanks with empty strings). -/
def pyParseNumber (v : PValue) : Option ℚ :=
  match v with
  | .pstr s => pyFloat s.toList
  | .pint n => some (n : ℚ)
  | .pfloat q => some q
  | .pbool b => some (if b then 1 else 0)
  | .ptimestamp _ _ _ _ _ _ => none
  | .pnan => none

/-- `pd.to_numeric(df[c], errors='coerce').dropna()`: the numeric values of
    column c, in row order. -/
def numericCol (df : Table) (c : Nat) : List ℚ :=
  df.rows.filterMap fun row => pyParseNumber (row.getD c (.pstr ""))

/-- As `numericCol`, but keeping each surviving value's original row
    position (the pandas Series index that `dropna` preserves). -/
def numericColIdx (df : Table) (c : Nat) : List (Nat × ℚ) :=
  df.rows.enum.filterMap fun rc =>
    (pyParseNumber (rc.2.getD c (.pstr ""))).map fun q => (rc.1, q)

/-- Python `sum` / pandas `.sum()` over the values. -/
def listSum (l : List ℚ) : ℚ := l.foldl (· + ·) 0

/-- pandas `.prod()` over the values. -/
def listProd (l : List ℚ) : ℚ := l.foldl (· * ·) 1

/-- Python `min` / pandas `.min()` over a nonempty list (0 on empty input,
    which no caller reaches). -/
def listMin : List ℚ → ℚ
  | [] => 0
  | h :: t => t.foldl min h

/-- Python `max` / pandas `.max()` over a nonempty list (0 on empty input,
    which no caller reaches). -/
def listMax : List ℚ → ℚ
  | [] => 0
  | h :: t => t.foldl max h

/-- One column's entry in the summary-statistics result: either the
    error marker dict or the statistics block.  The source block also
    carries median, mode, sample std-dev/variance and quartiles; those are
    real-valued (square roots, interpolation) and referenced by no claim,
    so the model carries the exactly-representable fields. -/
inductive SummaryEntry where
  | err (msg : String)
  | stats (count : Nat) (mean minv maxv rangev : ℚ)
deriving DecidableEq, Repr

/-- `AnalysisService.calculate_summary_statistics`: per selected column —
    a column index absent from the frame is skipped (continue); a column
    with zero numeric values after coercion gets the error marker; otherwise
    the statistics block. -/
def calculate_summary_statistics (df : Table) (columns : List Nat) :
    List (Nat × SummaryEntry) :=
  columns.filterMap fun c =>
    if c < df.ncols then
      if (numericCol df c).length = 0 then
        some (c, .err "No numeric data found in column")
      else
        some (c, .stats (numericCol df c).length
          (listSum (numericCol df c) / (numericCol df c).length)
          (listMin (numericCol df c)) (listMax (numericCol df c))
          (listMax (numericCol df c) - listMin (numericCol df c)))
    else none

/-- One column's entry in the custom-analysis result. -/
inductive CustomEntry where
  | sumR (q : ℚ)
  | productR (q : ℚ)
  | differenceR (q : ℚ)
  | err (msg : String)
deriving DecidableEq, Repr

/-- `AnalysisService.calculate_custom_analysis`: per selected column — an
    absent column index is skipped; a column with zero numeric values after
    coercion is skipped entirely (no entry, no error); otherwise sum /
    product / difference (max − min), and any other operation string yields
    the per-column error marker. -/
def calculate_custom_analysis (df : Table) (columns : List Nat)
    (operation : String) : List (Nat × CustomEntry) :=
  columns.filterMap fun c =>
    if c < df.ncols then
      if (numericCol df c).length = 0 then none
      else if operation = "sum" then some (c, .sumR (listSum (numericCol df c)))
      else if operation = "product" then
        some (c, .productR (listProd (numericCol df c)))
      else if operation = "difference" then
        some (c, .differenceR (listMax (numericCol df c) - listMin (numericCol df c)))
      else some (c, .err ("Unknown operation: " ++ operation))
    else none

/-- The result of `calculate_correlation`: the selected columns and the
    numeric-coerced sub-frame (`numeric_df`, per column, NaN kept as none).
    The Pearson matrix and the defined-pairs list the source derives from it
    are irrational-valued (square-root quotients) and referenced by no
    claim, so they are not carried. -/
structure CorrResult where
  columns : List Nat
  numeric : List (List (Option ℚ))
deriving DecidableEq, Repr

/-- `AnalysisService.calculate_correlation`: the very first statement
    `selected_df = df[columns]` raises KeyError as soon as any selected
    label is absent from the frame's columns (pandas raises "... not in
    index" for missing labels); nothing catches it.  With all columns
    present the numeric-coerced sub-frame is built and the correlation
    results returned. -/
def calculate_correlation (df : Table) (columns : List Nat) :
    Except PyErr CorrResult :=
  if ∀ c ∈ columns, c < df.ncols then
    .ok ⟨columns,
      columns.map fun c => df.rows.map fun row => pyParseNumber (row.getD c (.pstr ""))⟩
  else .error (.keyError "not in index")

/-- The aligned (x, y) numeric pairs of `calculate_linear_regression`:
    both columns coerced and dropna'd independently, then intersected on
    row position (`x_data.index.intersection(y_data.index)`), keeping row
    order. -/
def alignedPairs (df : Table) (x y : Nat) : List (ℚ × ℚ) :=
  (numericColIdx df x).filterMap fun p =>
    ((numericColIdx df y).lookup p.1).map fun qy => (p.2, qy)

/-- The regression result.  The source also returns Pearson r, r², the
    p-value, the slope's standard error, a formatted equation string and
    residual statistics; these are real-valued (square roots, t-CDF) and
    referenced by no claim, so the model carries the exactly-representable
    outputs. -/
structure RegResult where
  x_column : Nat
  y_column : Nat
  slope : ℚ
  intercept : ℚ
  n : Nat
deriving DecidableEq, Repr

/-- The ordinary-least-squares slope of `stats.linregress` over the aligned
    pairs (exact rational form of cov(x,y)/var(x)). -/
def regSlope (df : Table) (x y : Nat) : ℚ :=
  let pairs := alignedPairs df x y
  let n : ℚ := pairs.length
  let sx := listSum (pairs.map Prod.fst)
  let sy := listSum (pairs.map Prod.snd)
  let sxx := listSum (pairs.map fun p => p.1 * p.1)
  let sxy := listSum (pairs.map fun p => p.1 * p.2)
  (n * sxy - sx * sy) / (n * sxx - sx * sx)

/-- The intercept of `stats.linregress`: mean(y) − slope · mean(x). -/
def regIntercept (df : Table) (x y : Nat) : ℚ :=
  let pairs := alignedPairs df x y
  let n : ℚ := pairs.length
  listSum (pairs.map Prod.snd) / n - regSlope df x y * (listSum (pairs.map Prod.fst) / n)

/-- `AnalysisService.calculate_linear_regression`: ValueError when either
    column index is not a column of the frame; ValueError when fewer than 2
    aligned points remain after coercion and intersection; ValueError
    (raised inside `scipy.stats.linregress`, uncaught) when all aligned x
    values are identical (`np.amax(x) == np.amin(x)` with len > 1);
    otherwise the ordinary-least-squares fit. -/
def calculate_linear_regression (df : Table) (x_column y_column : Nat) :
    Except PyErr RegResult :=
  if x_column < df.ncols ∧ y_column < df.ncols then
    if (alignedPairs df x_column y_column).length < 2 then
      .error (.valueError "Insufficient data points for regression")
    else if ∀ p ∈ alignedPairs df x_column y_column,
        p.1 = ((alignedPairs df x_column y_column).headD (0, 0)).1 then
      .error (.valueError "Cannot calculate a linear regression if all x values are identical")
    else
      .ok ⟨x_column, y_column, regSlope df x_column y_column,
        regIntercept df x_column y_column, (alignedPairs df x_column y_column).length⟩
  else .error (.valueError "Column indices out of range")

/-- The entry `calculate_summary_statistics` produces for a present column. -/
def summaryEntryFor (df : Table) (c : Nat) : SummaryEntry :=
  if (numericCol df c).length = 0 then .err "No numeric data found in column"
  else .stats (numericCol df c).length (listSum (numericCol df c) / (numericCol df c).length)
    (listMin (numericCol df c)) (listMax (numericCol df c))
    (listMax (numericCol df c) - listMin (numericCol df c))

/-- The entry `calculate_custom_analysis` produces for a present column with
    at least one numeric value. -/
def customEntryFor (df : Table) (operation : String) (c : Nat) : CustomEntry :=
  if operation = "sum" then .sumR (listSum (numericCol df c))
  else if operation = "product" then .productR (listProd (numericCol df c))
  else if operation = "difference" then
    .differenceR (listMax (numericCol df c) - listMin (numericCol df c))
  else .err ("Unknown operation: " ++ operation)

theorem mem_summary_iff (df : Table) (columns : List Nat) (c : Nat) (e : SummaryEntry) :
    (c, e) ∈ calculate_summary_statistics df columns ↔
      c ∈ columns ∧ c < df.ncols ∧ e = summaryEntryFor df c := by
  unfold calculate_summary_statistics
  have hfun : ∀ c' : Nat,
      (if c' < df.ncols then
        if (numericCol df c').length = 0 then
          some (c', SummaryEntry.err "No numeric data found in column")
        else
          some (c', .stats (numericCol df c').length
            (listSum (numericCol df c') / (numericCol df c').length)
            (listMin (numericCol df c')) (listMax (numericCol df c'))
            (listMax (numericCol df c') - listMin (numericCol df c')))
      else none) =
      (if c' < df.ncols then some (c', summaryEntryFor df c') else none) := by
    intro c'
    by_cases hlt : c' < df.ncols
    · rw [if_pos hlt, if_pos hlt]
      unfold summaryEntryFor
      by_cases hz : (numericCol df c').length = 0
      · rw [if_pos hz, if_pos hz]
      · rw [if_neg hz, if_neg hz]
    · rw [if_neg hlt, if_neg hlt]
  simp only [hfun]
  rw [List.mem_filterMap]
  constructor
  · rintro ⟨c', hc', hsome⟩
    by_cases hlt : c' < df.ncols
    · rw [if_pos hlt] at hsome
      have hpair := Option.some.inj hsome
      rw [Prod.mk.injEq] at hpair
      obtain ⟨h1, h2⟩ := hpair
      subst h1
      exact ⟨hc', hlt, h2.symm⟩
    · rw [if_neg hlt] at hsome
      cases hsome
  · rintro ⟨hcmem, hlt, rfl⟩
    exact ⟨c, hcmem, by rw [if_pos hlt]⟩

theorem mem_custom_iff (df : Table) (columns : List Nat) (operation : String)
    (c : Nat) (e : CustomEntry) :
    (c, e) ∈ calculate_custom_analysis df columns operation ↔
      c ∈ columns ∧ c < df.ncols ∧ numericCol df c ≠ [] ∧
        e = customEntryFor df operation c := by
  unfold calculate_custom_analysis
  have hfun : ∀ c' : Nat,
      (if c' < df.ncols then
        if (numericCol df c').length = 0 then none
        else if operation = "sum" then
          some (c', CustomEntry.sumR (listSum (numericCol df c')))
        else if operation = "product" then
          some (c', .productR (listProd (numericCol df c')))
        else if operation = "difference" then
          some (c', .differenceR (listMax (numericCol df c') - listMin (numericCol df c')))
        else some (c', .err ("Unknown operation: " ++ operation))
      else none) =
      (if c' < df.ncols ∧ numericCol df c' ≠ [] then
        some (c', customEntryFor df operation c') else none) := by
    intro c'
    by_cases hlt : c' < df.ncols
    · by_cases hz : (numericCol df c').length = 0
      · rw [if_pos hlt, if_pos hz, if_neg]
        rintro ⟨_, hne⟩
        exact hne (List.length_eq_zero.mp hz)
      · have hne : numericCol df c' ≠ [] := fun he => hz (by rw [he]; rfl)
        rw [if_pos hlt, if_neg hz]
        conv_rhs => rw [if_pos ⟨hlt, hne⟩]
        unfold customEntryFor
        by_cases hs : operation = "sum"
        · rw [if_pos hs, if_pos hs]
        · rw [if_neg hs, if_neg hs]
          by_cases hp : operation = "product"
          · rw [if_pos hp, if_pos hp]
          · rw [if_neg hp, if_neg hp]
            by_cases hd : operation = "difference"
            · rw [if_pos hd, if_pos hd]
            · rw [if_neg hd, if_neg hd]
    · rw [if_neg hlt, if_neg fun hc => hlt hc.1]
  simp only [hfun]
  rw [List.mem_filterMap]
  constructor
  · rintro ⟨c', hc', hsome⟩
    by_cases hcond : c' < df.ncols ∧ numericCol df c' ≠ []
    · rw [if_pos hcond] at hsome
      have hpair := Option.some.inj hsome
      rw [Prod.mk.injEq] at hpair
      obtain ⟨h1, h2⟩ := hpair
      subst h1
      exact ⟨hc', hcond.1, hcond.2, h2.symm⟩
    · rw [if_neg hcond] at hsome
      cases hsome
  · rintro ⟨hcmem, hlt, hne, rfl⟩
    exact ⟨c, hcmem, by rw [if_pos ⟨hlt, hne⟩]⟩

/-- C9 — Failure embedding of `calculate_custom_analysis` versus
    `calculate_summary_statistics`: a selected column with zero numeric
    values after coercion is skipped entirely by custom analysis (no entry
    of any kind), while summary statistics emits its per-column error
    marker; and a present column with at least one numeric value under an
    operation other than sum/product/difference gets a per-column error
    marker embedded in the custom result rather than an exception. -/
theorem custom_skip_vs_summary_error (df : Table) (columns : List Nat)
    (operation : String) :
    (∀ c, numericCol df c = [] →
      ∀ e, (c, e) ∉ calculate_custom_analysis df columns operation) ∧
    (∀ c ∈ columns, c < df.ncols → numericCol df c = [] →
      (c, SummaryEntry.err "No numeric data found in column") ∈
        calculate_summary_statistics df columns) ∧
    (∀ c ∈ columns, c < df.ncols → numericCol df c ≠ [] →
      operation ∉ ["sum", "product", "difference"] →
      (c, CustomEntry.err ("Unknown operation: " ++ operation)) ∈
        calculate_custom_analysis df columns operation) := by
  refine ⟨?_, ?_, ?_⟩
  · intro c hnd e hmem
    obtain ⟨_, _, hne, _⟩ := (mem_custom_iff df columns operation c e).mp hmem
    exact hne hnd
  · intro c hcmem hlt hnd
    refine (mem_summary_iff df columns c _).mpr ⟨hcmem, hlt, ?_⟩
    unfold summaryEntryFor
    rw [if_pos (by simp [hnd])]
  · intro c hcmem hlt hne hop
    refine (mem_custom_iff df columns operation c _).mpr ⟨hcmem, hlt, hne, ?_⟩
    simp only [List.mem_cons, List.mem_singleton, not_or] at hop
    unfold customEntryFor
    rw [if_neg hop.1, if_neg hop.2.1, if_neg hop.2.2.1]

/-- C9 witness: on a table whose column 0 holds only the non-numeric text
    "x" and whose column 1 holds "1", custom analysis under the unknown
    operation "frobnicate" skips column 0 and embeds an error marker for
    column 1, while summary statistics emits the no-numeric-data marker for
    column 0. -/
theorem custom_skip_vs_summary_error_witness :
    ((0, CustomEntry.sumR 0) ∉
      calculate_custom_analysis ⟨2, [[.pstr "x", .pstr "1"]]⟩ [0, 1] "frobnicate") ∧
    ((0, SummaryEntry.err "No numeric data found in column") ∈
      calculate_summary_statistics ⟨2, [[.pstr "x", .pstr "1"]]⟩ [0, 1]) ∧
    ((1, CustomEntry.err "Unknown operation: frobnicate") ∈
      calculate_custom_analysis ⟨2, [[.pstr "x", .pstr "1"]]⟩ [0, 1] "frobnicate") := by
  refine ⟨?_, ?_, ?_⟩
  · exact (custom_skip_vs_summary_error ⟨2, [[.pstr "x", .pstr "1"]]⟩ [0, 1]
      "frobnicate").1 0 (by decide) (CustomEntry.sumR 0)
  · exact (custom_skip_vs_summary_error ⟨2, [[.pstr "x", .pstr "1"]]⟩ [0, 1]
      "frobnicate").2.1 0 (by decide) (by decide) (by decide)
  · exact (custom_skip_vs_summary_error ⟨2, [[.pstr "x", .pstr "1"]]⟩ [0, 1]
      "frobnicate").2.2 1 (by decide) (by decide) (by decide) (by decide)

/-- C10 — Correlation is stricter than the other analyses about absent
    columns: when any selected column index is not a column of the table,
    `calculate_correlation` raises (the `df[columns]` subscript fails with
    KeyError), whereas `calculate_summary_statistics` and
    `calculate_custom_analysis` silently skip the missing column and emit
    no entry for it. -/
theorem correlation_strict_on_missing (df : Table) (columns : List Nat)
    (h : ∃ c ∈ columns, df.ncols ≤ c) :
    calculate_correlation df columns = .error (.keyError "not in index") ∧
    (∀ c ∈ columns, df.ncols ≤ c →
      (∀ e, (c, e) ∉ calculate_summary_statistics df columns) ∧
      (∀ operation e', (c, e') ∉ calculate_custom_analysis df columns operation)) := by
  constructor
  · unfold calculate_correlation
    rw [if_neg]
    obtain ⟨c, hc, hge⟩ := h
    intro hall
    exact absurd (hall c hc) (by omega)
  · intro c hcmem hge
    constructor
    · intro e hmem
      obtain ⟨_, hlt, _⟩ := (mem_summary_iff df columns c e).mp hmem
      omega
    · intro operation e' hmem
      obtain ⟨_, hlt, _, _⟩ := (mem_custom_iff df columns operation c e').mp hmem
      omega

/-- C10 witness: with columns [0, 2] on a 2-column table, correlation
    raises KeyError while summary statistics and custom analysis emit no
    entry for the missing column 2. -/
theorem correlation_strict_on_missing_witness :
    calculate_correlation ⟨2, [[.pstr "1", .pstr "2"]]⟩ [0, 2] =
      .error (.keyError "not in index") ∧
    ((2, SummaryEntry.err "No numeric data found in column") ∉
      calculate_summary_statistics ⟨2, [[.pstr "1", .pstr "2"]]⟩ [0, 2]) := by
  have h := correlation_strict_on_missing ⟨2, [[.pstr "1", .pstr "2"]]⟩ [0, 2]
    ⟨2, by decide, by decide⟩
  exact ⟨h.1, (h.2 2 (by decide) (by decide)).1 _⟩

/-- C8 (amended) — `calculate_linear_regression` raises ValueError if and
    only if a selected column index is not a column of the table, or fewer
    than 2 aligned numeric points remain after coercion and intersection,
    or all aligned x values are identical (scipy's linregress rejects a
    constant x); in every other case it returns a result. -/
theorem linear_regression_error_iff (df : Table) (x y : Nat) :
    (∃ e, calculate_linear_regression df x y = .error e) ↔
      (¬(x < df.ncols ∧ y < df.ncols) ∨
        (alignedPairs df x y).length < 2 ∨
        (∀ p ∈ alignedPairs df x y, p.1 = ((alignedPairs df x y).headD (0, 0)).1)) := by
  unfold calculate_linear_regression
  split_ifs with h1 h2 h3
  · exact iff_of_true ⟨_, rfl⟩ (Or.inr (Or.inl h2))
  · exact iff_of_true ⟨_, rfl⟩ (Or.inr (Or.inr h3))
  · apply iff_of_false
    · rintro ⟨e, he⟩
      exact he
    · rintro (hc | hc | hc)
      · exact hc h1
      · exact h2 hc
      · exact h3 hc
  · exact iff_of_true ⟨_, rfl⟩ (Or.inl h1)

/-- C8 counterexample: columns 0 and 1 are in range and two aligned points
    remain, yet the call raises — scipy's linregress rejects the constant
    x column [1, 1], so "raises iff out-of-range or fewer than 2 aligned
    points" is false. -/
theorem linear_regression_constant_x_cex :
    (alignedPairs ⟨2, [[.pstr "1", .pstr "1"], [.pstr "1", .pstr "2"]]⟩ 0 1).length = 2 ∧
    calculate_linear_regression ⟨2, [[.pstr "1", .pstr "1"], [.pstr "1", .pstr "2"]]⟩ 0 1 =
      .error (.valueError "Cannot calculate a linear regression if all x values are identical") := by
  constructor
  · decide
  · with_unfolding_all decide

/-- The inner `col_letter_to_num` of `evaluate_formula.parse_range`: Excel
    column letters as a bijective base-26 numeral (A=1 … Z=26, AA=27, …)
    made zero-based by the final `- 1` (an empty letter string yields -1). -/
def col_letter_to_num (letters : List Char) : Int :=
  ((letters.foldl
    (fun num ch =>
      if ch.isAlpha then num * 26 + (ch.toUpper.toNat - 'A'.toNat + 1) else num)
    0 : Nat) : Int) - 1

/-- The inner `parse_range` of `evaluate_formula`: two colon-separated
    endpoints, each reduced to its letter characters (column) and digit
    characters (row, one-based in the text, made zero-based by `- 1`).
    A missing colon (or more than one) returns None; endpoint digit strings
    being empty makes `int('')` raise, which the outer except turns into the
    same None result, so both are modelled as none here. -/
def parse_range (range_str : List Char) : Option (Int × Int × Int × Int) :=
  match splitOnChar ':' range_str with
  | [st, en] =>
    if (st.filter Char.isDigit).length = 0 ∨ (en.filter Char.isDigit).length = 0 then none
    else
      some ((pyIntDigits (st.filter Char.isDigit) : Int) - 1,
        col_letter_to_num (st.filter Char.isAlpha),
        (pyIntDigits (en.filter Char.isDigit) : Int) - 1,
        col_letter_to_num (en.filter Char.isAlpha))
  | _ => none

/-- Python `range(a, b)` over integers. -/
def intRange (a b : Int) : List Int :=
  (List.range (b - a).toNat).map fun (i : Nat) => a + (i : Int)

/-- The value-collection loops of `evaluate_formula`: every (r, c) from the
    start endpoint to the end endpoint (forward iteration only — empty when
    an endpoint is reversed), keeping cells inside the frame's dimensions
    whose value parses as a number.  A coordinate that passes the
    `r < len(df.index) and c < len(df.columns)` test while negative makes
    `df.at[r, c]` raise KeyError (the RangeIndex has no negative labels),
    which the outer except turns into None — modelled by the whole
    collection returning none. -/
def collectStep (df : Table) (acc : Option (List ℚ)) (rc : Int × Int) :
    Option (List ℚ) :=
  match acc with
  | none => none
  | some vs =>
    if rc.1 < (df.rows.length : Int) ∧ rc.2 < (df.ncols : Int) then
      if 0 ≤ rc.1 ∧ 0 ≤ rc.2 then
        match pyParseNumber (cellAt df rc.1.toNat rc.2.toNat) with
        | some q => some (vs ++ [q])
        | none => some vs
      else none
    else some vs

/-- The two nested collection loops, as a fold of `collectStep` over the
    row-major coordinate sequence. -/
def collectVals (df : Table) (sr sc er ec : Int) : Option (List ℚ) :=
  ((intRange sr (er + 1)).flatMap fun r =>
      (intRange sc (ec + 1)).map fun c => (r, c)).foldl (collectStep df) (some [])

/-- The function-dispatch tail of `evaluate_formula`: SUM, AVG/AVERAGE,
    MIN, MAX; any other name falls through to None. -/
def applyFunc (func_name : List Char) (values : List ℚ) : Option ℚ :=
  if func_name = "SUM".toList then some (listSum values)
  else if func_name = "AVG".toList ∨ func_name = "AVERAGE".toList then
    some (listSum values / values.length)
  else if func_name = "MIN".toList then some (listMin values)
  else if func_name = "MAX".toList then some (listMax values)
  else none

/-- Python `str.startswith` for a single-character needle. -/
def pyStartsWith (l : List Char) (c : Char) : Bool :=
  match l with
  | [] => false
  | x :: _ => x = c

/-- The local variable `formula` of `evaluate_formula` after the rebinding
    `formula = formula[1:].strip().upper()` (applied to the
    already-stripped input). -/
def upperBody (formula : List Char) : List Char :=
  (pyStrip ((pyStrip formula).drop 1)).map Char.toUpper

/-- `DataEngineService.evaluate_formula` (the formula string modelled as its
    character list): strip; require a leading `=`; strip and uppercase the
    rest; require both parentheses; split out the function name (before the
    first `(`) and the range text (between the first `(` and the next `)`);
    parse the range, collect the numeric values of the rectangle, and
    apply the named function — any failure along the way yields None.  The
    `row`/`col` arguments of the Python signature are unused by its body
    and omitted. -/
def evaluate_formula (formula : List Char) (df : Table) : Option ℚ :=
  if pyStartsWith (pyStrip formula) '=' then
    if '(' ∈ upperBody formula ∧ ')' ∈ upperBody formula then
      match parse_range (pyStrip ((splitOnChar ')'
          ((splitOnChar '(' (upperBody formula)).getD 1 [])).headD [])) with
      | none => none
      | some (sr, sc, er, ec) =>
        match collectVals df sr sc er ec with
        | none => none
        | some values =>
          if values = [] then none
          else applyFunc (pyStrip ((splitOnChar '(' (upperBody formula)).headD [])) values
    else none
  else none

/-- The tail of `evaluate_formula` once the function name and range text
    have been isolated (used to state the parsing lemma). -/
def evalCore (fname inner : List Char) (df : Table) : Option ℚ :=
  match parse_range inner with
  | none => none
  | some (sr, sc, er, ec) =>
    match collectVals df sr sc er ec with
    | none => none
    | some values => if values = [] then none else applyFunc fname values

/-- A well-formed formula string built from a function name and a range
    text: `=NAME(INNER)`. -/
def mkFormula (fname inner : List Char) : List Char :=
  '=' :: (fname ++ ('(' :: (inner ++ [')'])))

/-- A character the pre-processing of `evaluate_formula` leaves alone:
    fixed by upper-casing, not whitespace, and not a parenthesis. -/
def PlainChar (c : Char) : Prop :=
  c.toUpper = c ∧ c.isWhitespace = false ∧ c ≠ '(' ∧ c ≠ ')'

instance : DecidablePred PlainChar := fun c =>
  decidable_of_iff (c.toUpper = c ∧ c.isWhitespace = false ∧ c ≠ '(' ∧ c ≠ ')') Iff.rfl

theorem dropWhile_all_neg {p : Char → Bool} {l : List Char}
    (h : ∀ c ∈ l, p c = false) : l.dropWhile p = l := by
  cases l with
  | nil => rfl
  | cons c t =>
    rw [List.dropWhile_cons, h c (List.mem_cons_self c t)]
    simp

theorem pyStrip_eq_self {l : List Char} (h : ∀ c ∈ l, c.isWhitespace = false) :
    pyStrip l = l := by
  unfold pyStrip
  rw [dropWhile_all_neg h,
    dropWhile_all_neg fun c hc => h c (List.mem_reverse.mp hc), List.reverse_reverse]

theorem map_toUpper_id {l : List Char} (h : ∀ c ∈ l, c.toUpper = c) :
    l.map Char.toUpper = l := by
  rw [List.map_congr_left h]
  simp

theorem splitOnChar_no_sep {sep : Char} {l : List Char} (h : sep ∉ l) :
    splitOnChar sep l = [l] := by
  induction l with
  | nil => rfl
  | cons c t ih =>
    have hc : ¬c = sep := by
      intro hceq
      apply h
      rw [← hceq]
      exact List.mem_cons_self c t
    unfold splitOnChar
    rw [if_neg hc, ih fun hm => h (List.mem_cons_of_mem c hm)]

theorem splitOnChar_single {sep : Char} {a b : List Char}
    (ha : sep ∉ a) (hb : sep ∉ b) :
    splitOnChar sep (a ++ sep :: b) = [a, b] := by
  induction a with
  | nil =>
    show splitOnChar sep (sep :: b) = [[], b]
    unfold splitOnChar
    rw [if_pos rfl, splitOnChar_no_sep hb]
  | cons c t ih =>
    have hc : ¬c = sep := fun hc => ha (hc ▸ List.mem_cons_self c t)
    show splitOnChar sep (c :: (t ++ sep :: b)) = [c :: t, b]
    unfold splitOnChar
    rw [if_neg hc, ih fun hm => ha (List.mem_cons_of_mem c hm)]

theorem upperBody_mkFormula {fname inner : List Char}
    (hf : ∀ c ∈ fname, PlainChar c) (hi : ∀ c ∈ inner, PlainChar c) :
    upperBody (mkFormula fname inner) = fname ++ ('(' :: (inner ++ [')'])) := by
  have hws : ∀ c ∈ mkFormula fname inner, c.isWhitespace = false := by
    intro c hc
    unfold mkFormula at hc
    rcases List.mem_cons.mp hc with rfl | hc'
    · decide
    rcases List.mem_append.mp hc' with hcf | hc''
    · exact (hf c hcf).2.1
    rcases List.mem_cons.mp hc'' with rfl | hc3
    · decide
    rcases List.mem_append.mp hc3 with hci | hc4
    · exact (hi c hci).2.1
    · rcases List.mem_cons.mp hc4 with rfl | h5
      · decide
      · cases h5
  have hbody : ∀ c ∈ fname ++ ('(' :: (inner ++ [')'])), c.isWhitespace = false :=
    fun c hc => hws c (List.mem_cons_of_mem '=' hc)
  have hup : ∀ c ∈ fname ++ ('(' :: (inner ++ [')'])), c.toUpper = c := by
    intro c hc
    rcases List.mem_append.mp hc with hcf | hc''
    · exact (hf c hcf).1
    rcases List.mem_cons.mp hc'' with rfl | hc3
    · decide
    rcases List.mem_append.mp hc3 with hci | hc4
    · exact (hi c hci).1
    · rcases List.mem_cons.mp hc4 with rfl | h5
      · decide
      · cases h5
  unfold upperBody
  rw [pyStrip_eq_self hws]
  show (pyStrip (fname ++ ('(' :: (inner ++ [')'])))).map Char.toUpper = _
  rw [pyStrip_eq_self hbody, map_toUpper_id hup]

/-- Parsing lemma: on a well-formed `=NAME(INNER)` formula whose name and
    range text contain only plain characters, `evaluate_formula` reduces to
    the parse/collect/dispatch tail on NAME and INNER. -/
theorem eval_mk (df : Table) (fname inner : List Char)
    (hf : ∀ c ∈ fname, PlainChar c) (hi : ∀ c ∈ inner, PlainChar c) :
    evaluate_formula (mkFormula fname inner) df = evalCore fname inner df := by
  have hws : ∀ c ∈ mkFormula fname inner, c.isWhitespace = false := by
    intro c hc
    unfold mkFormula at hc
    rcases List.mem_cons.mp hc with rfl | hc'
    · decide
    rcases List.mem_append.mp hc' with hcf | hc''
    · exact (hf c hcf).2.1
    rcases List.mem_cons.mp hc'' with rfl | hc3
    · decide
    rcases List.mem_append.mp hc3 with hci | hc4
    · exact (hi c hci).2.1
    · rcases List.mem_cons.mp hc4 with rfl | h5
      · decide
      · cases h5
  have hfp : '(' ∉ fname := fun hm => (hf '(' hm).2.2.1 rfl
  have hfr : ')' ∉ fname := fun hm => (hf ')' hm).2.2.2 rfl
  have hip : '(' ∉ inner := fun hm => (hi '(' hm).2.2.1 rfl
  have hir : ')' ∉ inner := fun hm => (hi ')' hm).2.2.2 rfl
  have hfws : ∀ c ∈ fname, c.isWhitespace = false := fun c hc => (hf c hc).2.1
  have hiws : ∀ c ∈ inner, c.isWhitespace = false := fun c hc => (hi c hc).2.1
  unfold evaluate_formula
  rw [pyStrip_eq_self hws]
  rw [show pyStartsWith (mkFormula fname inner) '=' = true from by
    unfold mkFormula pyStartsWith
    simp]
  rw [if_pos rfl, upperBody_mkFormula hf hi]
  have hsplit1 : splitOnChar '(' (fname ++ ('(' :: (inner ++ [')']))) =
      [fname, inner ++ [')']] := by
    apply splitOnChar_single hfp
    intro hm
    rcases List.mem_append.mp hm with h1 | h2
    · exact hip h1
    · rcases List.mem_cons.mp h2 with h3 | h4
      · cases h3
      · cases h4
  have hsplit2 : splitOnChar ')' (inner ++ [')']) = [inner, []] := by
    have : (inner ++ [')']) = inner ++ ')' :: [] := rfl
    rw [this]
    exact splitOnChar_single hir (by simp)
  rw [hsplit1]
  show (if '(' ∈ fname ++ ('(' :: (inner ++ [')'])) ∧
      ')' ∈ fname ++ ('(' :: (inner ++ [')'])) then _ else none) = _
  rw [if_pos ⟨List.mem_append.mpr (Or.inr (List.mem_cons_self _ _)),
    List.mem_append.mpr (Or.inr (List.mem_cons_of_mem _
      (List.mem_append.mpr (Or.inr (List.mem_cons_self _ _)))))⟩]
  show (match parse_range (pyStrip ((splitOnChar ')'
      (([fname, inner ++ [')']]).getD 1 [])).headD [])) with
    | none => none
    | some (sr, sc, er, ec) =>
      match collectVals df sr sc er ec with
      | none => none
      | some values =>
        if values = [] then none
        else applyFunc (pyStrip (([fname, inner ++ [')']]).headD [])) values) = _
  show (match parse_range (pyStrip ((splitOnChar ')' (inner ++ [')'])).headD [])) with
    | none => none
    | some (sr, sc, er, ec) =>
      match collectVals df sr sc er ec with
      | none => none
      | some values =>
        if values = [] then none
        else applyFunc (pyStrip fname) values) = _
  rw [hsplit2]
  show (match parse_range (pyStrip inner) with
    | none => none
    | some (sr, sc, er, ec) =>
      match collectVals df sr sc er ec with
      | none => none
      | some values =>
        if values = [] then none
        else applyFunc (pyStrip fname) values) = _
  rw [pyStrip_eq_self hiws, pyStrip_eq_self hfws]
  rfl

/-- C7 — Soft failure of the formula evaluator: it returns no result (never
    raises) for any input whose stripped text does not start with `=`, any
    input lacking a parenthesis pair after pre-processing, any well-formed
    `=NAME(INNER)` whose range text has no colon, and any such formula whose
    function name is none of SUM/AVG/AVERAGE/MIN/MAX. -/
theorem evaluate_formula_soft_failure :
    (∀ (s : List Char) (df : Table), pyStartsWith (pyStrip s) '=' = false →
      evaluate_formula s df = none) ∧
    (∀ (s : List Char) (df : Table),
      ¬('(' ∈ upperBody s ∧ ')' ∈ upperBody s) → evaluate_formula s df = none) ∧
    (∀ (df : Table) (fname inner : List Char), (∀ c ∈ fname, PlainChar c) →
      (∀ c ∈ inner, PlainChar c) → ':' ∉ inner →
      evaluate_formula (mkFormula fname inner) df = none) ∧
    (∀ (df : Table) (fname inner : List Char), (∀ c ∈ fname, PlainChar c) →
      (∀ c ∈ inner, PlainChar c) →
      fname ≠ "SUM".toList → fname ≠ "AVG".toList → fname ≠ "AVERAGE".toList →
      fname ≠ "MIN".toList → fname ≠ "MAX".toList →
      evaluate_formula (mkFormula fname inner) df = none) := by
  refine ⟨?_, ?_, ?_, ?_⟩
  · intro s df h
    unfold evaluate_formula
    rw [h]
    rfl
  · intro s df h
    unfold evaluate_formula
    by_cases hstart : pyStartsWith (pyStrip s) '=' = true
    · rw [hstart, if_pos rfl, if_neg h]
    · rw [Bool.not_eq_true] at hstart
      rw [hstart]
      rfl
  · intro df fname inner hf hi hcolon
    rw [eval_mk df fname inner hf hi]
    unfold evalCore parse_range
    rw [splitOnChar_no_sep hcolon]
  · intro df fname inner hf hi h1 h2 h3 h4 h5
    rw [eval_mk df fname inner hf hi]
    unfold evalCore
    have happ : ∀ values, applyFunc fname values = none := by
      intro values
      unfold applyFunc
      rw [if_neg h1, if_neg (by tauto), if_neg h4, if_neg h5]
    rcases hp : parse_range inner with _ | ⟨sr, sc, er, ec⟩
    · simp [hp]
    · simp only [hp]
      rcases hc : collectVals df sr sc er ec with _ | values
      · simp [hc]
      · simp only [hc]
        by_cases hv : values = []
        · simp [hv]
        · simp [hv, happ values]

/-- C7 witness: the three soft-failure shapes of the spec — a missing
    leading `=`, a range with no colon, and an unknown function name — all
    evaluate to no result on a concrete table. -/
theorem evaluate_formula_soft_failure_witness :
    evaluate_formula "SUM(A1:A3)".toList ⟨1, [[.pstr "1"]]⟩ = none ∧
    evaluate_formula "=SUM(A1)".toList ⟨1, [[.pstr "1"]]⟩ = none ∧
    evaluate_formula "=FOO(A1:A3)".toList ⟨1, [[.pstr "1"]]⟩ = none := by
  refine ⟨?_, ?_, ?_⟩
  · exact evaluate_formula_soft_failure.1 _ _ (by decide)
  · have h := evaluate_formula_soft_failure.2.2.1 ⟨1, [[.pstr "1"]]⟩
      "SUM".toList "A1".toList (by decide) (by decide) (by decide)
    rw [show "=SUM(A1)".toList = mkFormula "SUM".toList "A1".toList from by decide]
    exact h
  · have h := evaluate_formula_soft_failure.2.2.2 ⟨1, [[.pstr "1"]]⟩
      "FOO".toList "A1:A3".toList (by decide) (by decide) (by decide) (by decide)
      (by decide) (by decide) (by decide)
    rw [show "=FOO(A1:A3)".toList = mkFormula "FOO".toList "A1:A3".toList from by decide]
    exact h

/-- The r-th uppercase letter (A=0 … Z=25). -/
def letterChar26 (r : Nat) : Char :=
  match r with
  | 0 => 'A' | 1 => 'B' | 2 => 'C' | 3 => 'D' | 4 => 'E' | 5 => 'F' | 6 => 'G'
  | 7 => 'H' | 8 => 'I' | 9 => 'J' | 10 => 'K' | 11 => 'L' | 12 => 'M' | 13 => 'N'
  | 14 => 'O' | 15 => 'P' | 16 => 'Q' | 17 => 'R' | 18 => 'S' | 19 => 'T' | 20 => 'U'
  | 21 => 'V' | 22 => 'W' | 23 => 'X' | 24 => 'Y' | _ => 'Z'

/-- Bijective base-26 letter digits of a positive number (fuelled structural
    recursion; 0 yields the empty string). -/
def colCharsAux : Nat → Nat → List Char
  | 0, _ => []
  | fuel + 1, n =>
    if n = 0 then []
    else colCharsAux fuel ((n - 1) / 26) ++ [letterChar26 ((n - 1) % 26)]

/-- The Excel column letters of the zero-based column index c
    (0 → A, 25 → Z, 26 → AA, …). -/
def colChars (c : Nat) : List Char := colCharsAux (c + 2) (c + 1)

/-- The `A1`-style text of the zero-based cell coordinate (column c, row r). -/
def cellRef (c r : Nat) : List Char := colChars c ++ natChars (r + 1)

/-- An uppercase letter as the range parser sees it: alphabetic, not a
    digit, plain, and not a colon. -/
def GoodLetter (ch : Char) : Prop :=
  ch.isAlpha = true ∧ ch.isDigit = false ∧ PlainChar ch ∧ ch ≠ ':'

/-- A decimal digit as the range parser sees it. -/
def GoodDigit (ch : Char) : Prop :=
  ch.isDigit = true ∧ ch.isAlpha = false ∧ PlainChar ch ∧ ch ≠ ':'

instance : DecidablePred GoodLetter := fun c =>
  decidable_of_iff
    (c.isAlpha = true ∧ c.isDigit = false ∧ PlainChar c ∧ c ≠ ':') Iff.rfl

instance : DecidablePred GoodDigit := fun c =>
  decidable_of_iff
    (c.isDigit = true ∧ c.isAlpha = false ∧ PlainChar c ∧ c ≠ ':') Iff.rfl

theorem letterChar26_good (r : Nat) : GoodLetter (letterChar26 r) := by
  unfold letterChar26
  split <;> decide

theorem letterChar26_val (r : Nat) (h : r < 26) :
    (letterChar26 r).toUpper.toNat - 'A'.toNat + 1 = r + 1 := by
  interval_cases r <;> decide

theorem digitChar10_good (r : Nat) : GoodDigit (digitChar10 r) := by
  unfold digitChar10
  split <;> decide

theorem digitChar10_val (r : Nat) (h : r < 10) :
    (digitChar10 r).toNat - '0'.toNat = r := by
  interval_cases r <;> decide

theorem colCharsAux_good (fuel n : Nat) : ∀ ch ∈ colCharsAux fuel n, GoodLetter ch := by
  induction fuel generalizing n with
  | zero => intro ch hch; cases hch
  | succ fuel ih =>
    intro ch hch
    unfold colCharsAux at hch
    by_cases hn : n = 0
    · rw [if_pos hn] at hch
      cases hch
    · rw [if_neg hn] at hch
      rcases List.mem_append.mp hch with h1 | h2
      · exact ih _ ch h1
      · rcases List.mem_cons.mp h2 with rfl | h3
        · exact letterChar26_good _
        · cases h3

theorem natCharsAux_good (fuel n : Nat) : ∀ ch ∈ natCharsAux fuel n, GoodDigit ch := by
  induction fuel generalizing n with
  | zero => intro ch hch; cases hch
  | succ fuel ih =>
    intro ch hch
    unfold natCharsAux at hch
    by_cases hn : n < 10
    · rw [if_pos hn] at hch
      rcases List.mem_cons.mp hch with rfl | h'
      · exact digitChar10_good n
      · cases h'
    · rw [if_neg hn] at hch
      rcases List.mem_append.mp hch with h1 | h2
      · exact ih _ ch h1
      · rcases List.mem_cons.mp h2 with rfl | h3
        · exact digitChar10_good _
        · cases h3

theorem colCharsAux_val (fuel : Nat) : ∀ n, n < fuel → ∀ a : Nat,
    (colCharsAux fuel n).foldl
      (fun num ch => if ch.isAlpha then num * 26 + (ch.toUpper.toNat - 'A'.toNat + 1) else num) a
    = a * 26 ^ (colCharsAux fuel n).length + n := by
  induction fuel with
  | zero => intro n h; omega
  | succ fuel ih =>
    intro n h a
    unfold colCharsAux
    by_cases hn : n = 0
    · rw [if_pos hn]
      simp [hn]
    · rw [if_neg hn]
      have hm : (n - 1) / 26 < fuel := by
        have h1 : (n - 1) / 26 ≤ n - 1 := Nat.div_le_self _ _
        omega
      rw [List.foldl_append, ih _ hm a]
      simp only [List.foldl_cons, List.foldl_nil]
      rw [if_pos (letterChar26_good _).1,
        letterChar26_val _ (Nat.mod_lt _ (by omega)),
        List.length_append, List.length_cons, List.length_nil]
      have hdm : 26 * ((n - 1) / 26) + (n - 1) % 26 = n - 1 := Nat.div_add_mod _ _
      have hpow : 26 ^ ((colCharsAux fuel ((n - 1) / 26)).length + (0 + 1)) =
          26 ^ (colCharsAux fuel ((n - 1) / 26)).length * 26 := by
        rw [pow_succ]
      rw [hpow]
      set k := 26 ^ (colCharsAux fuel ((n - 1) / 26)).length
      ring_nf
      omega

theorem col_letter_to_num_colChars (c : Nat) :
    col_letter_to_num (colChars c) = (c : Int) := by
  unfold col_letter_to_num colChars
  rw [colCharsAux_val (c + 2) (c + 1) (by omega) 0]
  push_cast
  omega

theorem natCharsAux_val (fuel : Nat) : ∀ n, n < fuel → ∀ a : Nat,
    (natCharsAux fuel n).foldl (fun a c => a * 10 + (c.toNat - '0'.toNat)) a
    = a * 10 ^ (natCharsAux fuel n).length + n := by
  induction fuel with
  | zero => intro n h; omega
  | succ fuel ih =>
    intro n h a
    unfold natCharsAux
    by_cases hn : n < 10
    · rw [if_pos hn]
      simp only [List.foldl_cons, List.foldl_nil, List.length_cons, List.length_nil]
      rw [digitChar10_val n hn]
      ring_nf
    · rw [if_neg hn]
      have hm : n / 10 < fuel := by
        have h1 : n / 10 < n := Nat.div_lt_self (by omega) (by omega)
        omega
      rw [List.foldl_append, ih _ hm a]
      simp only [List.foldl_cons, List.foldl_nil]
      rw [digitChar10_val _ (Nat.mod_lt _ (by omega)),
        List.length_append, List.length_cons, List.length_nil]
      have hdm : 10 * (n / 10) + n % 10 = n := Nat.div_add_mod _ _
      have hpow : 10 ^ ((natCharsAux fuel (n / 10)).length + (0 + 1)) =
          10 ^ (natCharsAux fuel (n / 10)).length * 10 := by
        rw [pow_succ]
      rw [hpow]
      set k := 10 ^ (natCharsAux fuel (n / 10)).length
      ring_nf
      omega

theorem pyIntDigits_natChars (n : Nat) : pyIntDigits (natChars n) = n := by
  unfold pyIntDigits natChars
  rw [natCharsAux_val (n + 1) n (by omega) 0]
  ring

theorem natChars_ne_nil (n : Nat) : natChars n ≠ [] := by
  unfold natChars natCharsAux
  by_cases hn : n < 10
  · rw [if_pos hn]
    exact List.cons_ne_nil _ _
  · rw [if_neg hn]
    simp

theorem filter_isAlpha_cellRef (c r : Nat) :
    (cellRef c r).filter Char.isAlpha = colChars c := by
  unfold cellRef colChars natChars
  rw [List.filter_append,
    List.filter_eq_self.mpr fun ch hch => (colCharsAux_good _ _ ch hch).1,
    List.filter_eq_nil_iff.mpr fun ch hch => by
      rw [(natCharsAux_good _ _ ch hch).2.1]
      exact Bool.false_ne_true,
    List.append_nil]

theorem filter_isDigit_cellRef (c r : Nat) :
    (cellRef c r).filter Char.isDigit = natChars (r + 1) := by
  unfold cellRef colChars natChars
  rw [List.filter_append,
    List.filter_eq_nil_iff.mpr fun ch hch => by
      rw [(colCharsAux_good _ _ ch hch).2.1]
      exact Bool.false_ne_true,
    List.filter_eq_self.mpr fun ch hch => (natCharsAux_good _ _ ch hch).1,
    List.nil_append]

theorem colon_not_mem_cellRef (c r : Nat) : ':' ∉ cellRef c r := by
  intro h
  unfold cellRef at h
  rcases List.mem_append.mp h with h1 | h2
  · exact (colCharsAux_good _ _ ':' h1).2.2.2 rfl
  · exact (natCharsAux_good _ _ ':' h2).2.2.2 rfl

theorem plain_mem_cellRef (c r : Nat) : ∀ ch ∈ cellRef c r, PlainChar ch := by
  intro ch hch
  unfold cellRef at hch
  rcases List.mem_append.mp hch with h1 | h2
  · exact (colCharsAux_good _ _ ch h1).2.2.1
  · exact (natCharsAux_good _ _ ch h2).2.2.1

theorem parse_range_cellRef (c1 r1 c2 r2 : Nat) :
    parse_range (cellRef c1 r1 ++ ':' :: cellRef c2 r2) =
      some ((r1 : Int), (c1 : Int), (r2 : Int), (c2 : Int)) := by
  unfold parse_range
  rw [splitOnChar_single (colon_not_mem_cellRef c1 r1) (colon_not_mem_cellRef c2 r2)]
  show (if ((cellRef c1 r1).filter Char.isDigit).length = 0 ∨
      ((cellRef c2 r2).filter Char.isDigit).length = 0 then none
    else some ((pyIntDigits ((cellRef c1 r1).filter Char.isDigit) : Int) - 1,
      col_letter_to_num ((cellRef c1 r1).filter Char.isAlpha),
      (pyIntDigits ((cellRef c2 r2).filter Char.isDigit) : Int) - 1,
      col_letter_to_num ((cellRef c2 r2).filter Char.isAlpha))) = _
  rw [filter_isDigit_cellRef, filter_isDigit_cellRef,
    filter_isAlpha_cellRef, filter_isAlpha_cellRef]
  rw [if_neg (by
    rw [not_or]
    constructor <;>
      exact fun h => natChars_ne_nil _ (List.length_eq_zero.mp h))]
  rw [pyIntDigits_natChars, pyIntDigits_natChars,
    col_letter_to_num_colChars, col_letter_to_num_colChars]
  have h1 : ((r1 + 1 : Nat) : Int) - 1 = (r1 : Int) := by omega
  have h2 : ((r2 + 1 : Nat) : Int) - 1 = (r2 : Int) := by omega
  rw [h1, h2]

/-- The values `evaluate_formula` collects for an in-range rectangle, stated
    over natural coordinates: row-major over rows r1..r2 and columns c1..c2
    inclusive, keeping the in-bounds cells whose value parses as a number. -/
def rectVals (df : Table) (r1 r2 c1 c2 : Nat) : List ℚ :=
  (List.range' r1 (r2 + 1 - r1)).flatMap fun r =>
    (List.range' c1 (c2 + 1 - c1)).filterMap fun c =>
      if r < df.rows.length ∧ c < df.ncols then pyParseNumber (cellAt df r c) else none

theorem filterMap_flatMap {α β γ : Type} (l : List α) (f : α → List β)
    (g : β → Option γ) :
    (l.flatMap f).filterMap g = l.flatMap fun a => (f a).filterMap g := by
  induction l with
  | nil => rfl
  | cons x t ih =>
    rw [List.flatMap_cons, List.flatMap_cons, List.filterMap_append, ih]

theorem collect_foldl (df : Table) (L : List (Int × Int))
    (hL : ∀ p ∈ L, 0 ≤ p.1 ∧ 0 ≤ p.2) (acc : List ℚ) :
    L.foldl (collectStep df) (some acc)
      = some (acc ++ L.filterMap fun p =>
          if p.1 < (df.rows.length : Int) ∧ p.2 < (df.ncols : Int) then
            pyParseNumber (cellAt df p.1.toNat p.2.toNat)
          else none) := by
  induction L generalizing acc with
  | nil => simp
  | cons p t ih =>
    have hp := hL p (List.mem_cons_self p t)
    have ht := fun q hq => hL q (List.mem_cons_of_mem p hq)
    rw [List.foldl_cons, List.filterMap_cons]
    show List.foldl (collectStep df)
        (if p.1 < (df.rows.length : Int) ∧ p.2 < (df.ncols : Int) then
          if 0 ≤ p.1 ∧ 0 ≤ p.2 then
            match pyParseNumber (cellAt df p.1.toNat p.2.toNat) with
            | some q => some (acc ++ [q])
            | none => some acc
          else none
        else some acc) t = _
    by_cases hb : p.1 < (df.rows.length : Int) ∧ p.2 < (df.ncols : Int)
    · rw [if_pos hb, if_pos hp, if_pos hb]
      generalize pyParseNumber (cellAt df p.1.toNat p.2.toNat) = pv
      cases pv with
      | none =>
        show List.foldl (collectStep df) (some acc) t = some (acc ++ _)
        rw [ih ht]
      | some q =>
        show List.foldl (collectStep df) (some (acc ++ [q])) t =
          some (acc ++ (q :: _))
        rw [ih ht]
        simp
    · rw [if_neg hb, if_neg hb]
      show List.foldl (collectStep df) (some acc) t = some (acc ++ _)
      rw [ih ht]

theorem intRange_cast (a b : Nat) :
    intRange (a : Int) (b : Int) = (List.range (b - a)).map fun i => ((a + i : Nat) : Int) := by
  unfold intRange
  have h : ((b : Int) - (a : Int)).toNat = b - a := by omega
  rw [h]
  apply List.map_congr_left
  intro i _
  push_cast
  ring

theorem collectVals_cast (df : Table) (r1 c1 r2 c2 : Nat) :
    collectVals df (r1 : Int) (c1 : Int) (r2 : Int) (c2 : Int) =
      some (rectVals df r1 r2 c1 c2) := by
  unfold collectVals
  have hr : ((r2 : Int) + 1) = ((r2 + 1 : Nat) : Int) := by push_cast; ring
  have hc : ((c2 : Int) + 1) = ((c2 + 1 : Nat) : Int) := by push_cast; ring
  rw [hr, hc, intRange_cast, intRange_cast]
  have hL : ∀ p ∈ ((List.range (r2 + 1 - r1)).map fun i => ((r1 + i : Nat) : Int)).flatMap
      fun r => ((List.range (c2 + 1 - c1)).map fun j => ((c1 + j : Nat) : Int)).map
        fun c => (r, c), 0 ≤ p.1 ∧ 0 ≤ p.2 := by
    intro p hp
    rw [List.mem_flatMap] at hp
    obtain ⟨r, hr', hp'⟩ := hp
    rw [List.mem_map] at hp'
    obtain ⟨cc, hcc, rfl⟩ := hp'
    rw [List.mem_map] at hr' hcc
    obtain ⟨i, _, rfl⟩ := hr'
    obtain ⟨j, _, rfl⟩ := hcc
    exact ⟨Int.natCast_nonneg _, Int.natCast_nonneg _⟩
  rw [collect_foldl df _ hL []]
  rw [List.nil_append]
  congr 1
  rw [filterMap_flatMap]
  unfold rectVals
  rw [List.range'_eq_map_range, List.range'_eq_map_range,
    List.flatMap_map, List.flatMap_map]
  apply List.flatMap_congr
  intro i _
  show (((List.range (c2 + 1 - c1)).map fun j => ((c1 + j : Nat) : Int)).map
      fun c => (((r1 + i : Nat) : Int), c)).filterMap _ = _
  rw [List.map_map, List.filterMap_map, List.filterMap_map]
  apply List.filterMap_congr
  intro j _
  show (if ((r1 + i : Nat) : Int) < (df.rows.length : Int) ∧
      ((c1 + j : Nat) : Int) < (df.ncols : Int) then
    pyParseNumber (cellAt df ((r1 + i : Nat) : Int).toNat ((c1 + j : Nat) : Int).toNat)
    else none) =
    (if r1 + i < df.rows.length ∧ c1 + j < df.ncols then
      pyParseNumber (cellAt df (r1 + i) (c1 + j)) else none)
  rw [Int.toNat_natCast, Int.toNat_natCast]
  by_cases hcond : r1 + i < df.rows.length ∧ c1 + j < df.ncols
  · rw [if_pos (by exact_mod_cast hcond), if_pos hcond]
  · rw [if_neg (by
      intro hcast
      exact hcond (by exact_mod_cast hcast)), if_neg hcond]

theorem rectVals_nil_of_reversed (df : Table) (r1 r2 c1 c2 : Nat)
    (h : r2 < r1 ∨ c2 < c1) : rectVals df r1 r2 c1 c2 = [] := by
  unfold rectVals
  rcases h with h | h
  · rw [show r2 + 1 - r1 = 0 from by omega]
    rfl
  · rw [show c2 + 1 - c1 = 0 from by omega]
    simp

/-- C3 (amended) — Range semantics of the formula evaluator: for a
    well-formed `=FUNC(P:Q)` over cell references P = (c1, r1) and
    Q = (c2, r2) (zero-based), the evaluator iterates rows from P's row to
    Q's row and columns from P's column to Q's column — forward only —
    collecting, in row-major order, every in-bounds cell value that parses
    as a number (coordinates outside the table's dimensions and
    non-numeric values are skipped), then applies FUNC; when an endpoint
    is reversed (Q's row above P's row, or Q's column left of P's column)
    the iteration covers no cells and the result is no result — the
    rectangle is NOT normalized to min/max of the endpoints. -/
theorem evaluate_formula_range_semantics (df : Table) (fname : List Char)
    (c1 r1 c2 r2 : Nat)
    (hf5 : fname = "SUM".toList ∨ fname = "AVG".toList ∨ fname = "AVERAGE".toList ∨
      fname = "MIN".toList ∨ fname = "MAX".toList) :
    (evaluate_formula (mkFormula fname (cellRef c1 r1 ++ ':' :: cellRef c2 r2)) df =
      if rectVals df r1 r2 c1 c2 = [] then none
      else applyFunc fname (rectVals df r1 r2 c1 c2)) ∧
    ((r2 < r1 ∨ c2 < c1) →
      evaluate_formula (mkFormula fname (cellRef c1 r1 ++ ':' :: cellRef c2 r2)) df
        = none) := by
  have hfchars : ∀ ch ∈ fname, PlainChar ch := by
    rcases hf5 with rfl | rfl | rfl | rfl | rfl <;> decide
  have hichars : ∀ ch ∈ cellRef c1 r1 ++ ':' :: cellRef c2 r2, PlainChar ch := by
    intro ch hch
    rcases List.mem_append.mp hch with h1 | h2
    · exact plain_mem_cellRef c1 r1 ch h1
    · rcases List.mem_cons.mp h2 with rfl | h3
      · decide
      · exact plain_mem_cellRef c2 r2 ch h3
  have hmain : evaluate_formula (mkFormula fname (cellRef c1 r1 ++ ':' :: cellRef c2 r2)) df =
      if rectVals df r1 r2 c1 c2 = [] then none
      else applyFunc fname (rectVals df r1 r2 c1 c2) := by
    rw [eval_mk df _ _ hfchars hichars]
    unfold evalCore
    rw [parse_range_cellRef]
    show (match collectVals df (r1 : Int) (c1 : Int) (r2 : Int) (c2 : Int) with
      | none => none
      | some values => if values = [] then none else applyFunc fname values) = _
    rw [collectVals_cast]
  refine ⟨hmain, fun hrev => ?_⟩
  rw [hmain, rectVals_nil_of_reversed df r1 r2 c1 c2 hrev]
  rfl

/-- C3 witness: on a 2×2 table of "1".."4", `=SUM(A1:B2)` sums the full
    rectangle to 10, and the reversed `=SUM(B2:A1)` covers no cells and
    yields no result. -/
theorem evaluate_formula_range_semantics_witness :
    evaluate_formula "=SUM(A1:B2)".toList
      ⟨2, [[.pstr "1", .pstr "2"], [.pstr "3", .pstr "4"]]⟩ = some 10 ∧
    evaluate_formula "=SUM(B2:A1)".toList
      ⟨2, [[.pstr "1", .pstr "2"], [.pstr "3", .pstr "4"]]⟩ = none := by
  constructor
  · have h := (evaluate_formula_range_semantics
      ⟨2, [[.pstr "1", .pstr "2"], [.pstr "3", .pstr "4"]]⟩
      "SUM".toList 0 0 1 1 (Or.inl rfl)).1
    rw [show "=SUM(A1:B2)".toList =
      mkFormula "SUM".toList (cellRef 0 0 ++ ':' :: cellRef 1 1) from by decide]
    rw [h]
    with_unfolding_all decide
  · have h := (evaluate_formula_range_semantics
      ⟨2, [[.pstr "1", .pstr "2"], [.pstr "3", .pstr "4"]]⟩
      "SUM".toList 1 1 0 0 (Or.inl rfl)).2 (Or.inl (by omega))
    rw [show "=SUM(B2:A1)".toList =
      mkFormula "SUM".toList (cellRef 1 1 ++ ':' :: cellRef 0 0) from by decide]
    exact h

/-- C3 counterexample: the reversed range `B10:A1`-style formula does not
    cover the same cells as its forward form — on a 2×2 table,
    `=SUM(B2:A1)` yields no result while `=SUM(A1:B2)` yields 10, so the
    claim that the rectangle spans min-to-max of the endpoints regardless
    of their order is false. -/
theorem evaluate_formula_reversed_cex :
    evaluate_formula "=SUM(B2:A1)".toList
      ⟨2, [[.pstr "1", .pstr "2"], [.pstr "3", .pstr "4"]]⟩ = none ∧
    evaluate_formula "=SUM(A1:B2)".toList
      ⟨2, [[.pstr "1", .pstr "2"], [.pstr "3", .pstr "4"]]⟩ = some 10 := by
  constructor <;> with_unfolding_all decide

end Minitab
